import Mathlib

/-!
# Fit: function adaptors as a shallow embedding

The library composes callables at compile time.  A callable is embedded as a
function from its argument list to an optional result: `none` stands for a call
expression that is ill-formed (the overload is removed by SFINAE, or the build
fails), `some r` for a call that is well-formed and returns `r`.  Argument
values live in one value domain `α`, results in `β`.

Sections follow the headers: `limit.hpp`, `partial.hpp`, `unpack.hpp`,
`flow.hpp`, `combine.hpp`, `fix.hpp`, `decorate.hpp`, `repeat.hpp`,
`repeat_while.hpp`, `pipable.hpp`, `match.hpp`, `reverse_compress.hpp`,
`apply.hpp`, `infix.hpp`, `reveal.hpp`, `protect.hpp`.  Recursion that the library leaves unbounded
(the call stack of `fix`, the template instantiations of `repeat_while`) carries
an explicit depth bound; a call that needs more depth has no result.
-/

namespace Fit

/-! ## limit.hpp -/

/-- The constant `SIZE_MAX` of `<cstdint>`, for a 64-bit `std::size_t`. -/
def SIZE_MAX : Nat := 2 ^ 64 - 1

/-- A callable object `F`.  `call` is its `operator()`; it is `none` on the
argument lists for which the call expression is ill-formed.
`fit_function_param_limit` is the nested typedef of that name, `none` when the
class does not declare it. -/
structure Callable (α β : Type) where
  call : List α → Option β
  fit_function_param_limit : Option Nat

/-- The metafunction `function_param_limit<F>` (limit.hpp:121-129): the primary
template is `SIZE_MAX`, the specialisation takes `F::fit_function_param_limit`
when that typedef exists. -/
def function_param_limit {α β : Type} (F : Callable α β) : Nat :=
  match F.fit_function_param_limit with
  | some n => n
  | none => SIZE_MAX

/-- The adaptor `limit_adaptor<N, F>` built by `limit_c<N>(f)` (limit.hpp:82-87,
112-116): it inherits `operator()` from `F` and declares the typedef. -/
def limit_c {α β : Type} (N : Nat) (F : Callable α β) : Callable α β :=
  { call := F.call, fit_function_param_limit := some N }

/-! ## pack.hpp and conditional.hpp (not among the sources) -/

/-- Modelled from the spec: `pack.hpp` (the type `detail::pack_base`) is not
among the sources.  An argument pack is "an ordered, fixed-arity, heterogeneous
sequence of captured argument values"; it is immutable once built. -/
structure pack_base (α : Type) where
  elems : List α
deriving DecidableEq, Repr

/-- Modelled from the spec: `pack_forward(xs...)` of the absent `pack.hpp`
builds the pack of `xs...`, each stored by forwarding reference. -/
def pack_forward {α : Type} (xs : List α) : pack_base α := ⟨xs⟩

/-- Modelled from the spec: `pack_decay(xs...)` of the absent `pack.hpp` builds
the pack of `xs...`, each stored by (decayed) value. -/
def pack_decay {α : Type} (xs : List α) : pack_base α := ⟨xs⟩

/-- Modelled from the spec: `pack_join(ps...)` of the absent `pack.hpp`;
"appending produces a new pack", and "left pack's elements precede right
pack's". -/
def pack_join {α : Type} : List (pack_base α) → pack_base α
  | [] => ⟨[]⟩
  | p :: ps => ⟨p.elems ++ (pack_join ps).elems⟩

/-- Modelled from the spec: calling a pack with a function, `p(f)`, of the
absent `pack.hpp`: `f` is invoked with the elements of the pack in order (this
is how partial.hpp:104-109 and unpack.hpp:162 use a pack). -/
def pack_base.call {α β : Type} (p : pack_base α) (f : List α → Option β) : Option β :=
  f p.elems

/-- Modelled from the spec: the typedef `fit_function_param_limit` that the
absent `pack.hpp` gives a pack, its number of elements (read at
partial.hpp:132). -/
def pack_base.fit_function_param_limit {α : Type} (p : pack_base α) : Nat :=
  p.elems.length

/-- Modelled from the spec: `conditional_adaptor<F1, F2>` of the absent
`conditional.hpp`.  The first alternative is used when it can be called with
the arguments ("if the predicate succeeds ... invoke"), otherwise the call
falls through to the second one; match.hpp:17-20 says of it that it resolves
its functions "based on order". -/
def conditional_adaptor {α β : Type} (F1 F2 : List α → Option β) : List α → Option β :=
  fun xs =>
    match F1 xs with
    | some r => some r
    | none => F2 xs

/-! ## partial.hpp -/

/-- The class of a function given to `partial`, as far as the specialisations
of `partial_adaptor<F, void>` tell classes apart: `pipable_adaptor<G>`
(partial.hpp:239-248), `static_<pipable_adaptor<G>>` (partial.hpp:250-259), and
every other class, for which the primary `partial_adaptor<F, void>`
(partial.hpp:220-237) is used.  A `Callable` alone is the behaviour of a
function object and says nothing of its class; the class is said here. -/
inductive function_class (α β : Type) where
  | function (F : Callable α β)
  | pipable_adaptor (G : function_class α β)
  | static_pipable_adaptor (G : function_class α β)

/-- The function that `partial_adaptor<F, void>` derives from and calls.  The
primary template derives from `callable_base<F>` (partial.hpp:220-221).  The
specialisations for `pipable_adaptor<G>` and `static_<pipable_adaptor<G>>`
derive from `partial_adaptor<G, void>` ("removing its pipableness",
partial.hpp:239-259), so their function is that of `partial_adaptor<G, void>`,
which may be specialised again. -/
def function_class.base {α β : Type} : function_class α β → Callable α β
  | function_class.function F => F
  | function_class.pipable_adaptor G => G.base
  | function_class.static_pipable_adaptor G => G.base

/-- The class template `partial_adaptor<F, Pack>` (partial.hpp:192-259): the
function the adaptor derives from and the captured pack.  `Pack = none` is
`partial_adaptor<F, void>`, which holds no pack; its `F` is the function that
the selected specialisation derives from (`function_class.base`), never a
`pipable_adaptor` as such.  With a pack there is no specialisation, and `F` is
the function as given. -/
structure partial_adaptor (α β : Type) where
  F : Callable α β
  Pack : Option (pack_base α)

/-- What a call of a `partial_adaptor` yields: the result of the wrapped
function (from `partial_adaptor_invoke`, or from `F` itself), or a new adaptor
(from `partial_adaptor_join` / `partial_adaptor_pack`). -/
inductive partial_result (α β : Type) where
  | returned (r : β)
  | adaptor (p : partial_adaptor α β)

/-- The static variable `partial` applied to a function only,
`partial(f)` (partial.hpp:72): `make<partial_adaptor>` yields
`partial_adaptor<F, void>`, whose specialisation is chosen by the class of `f`
(partial.hpp:220-259): `partial(pipable(g))` is an adaptor over `g`. -/
def make_partial_adaptor {α β : Type} (f : function_class α β) : partial_adaptor α β :=
  { F := f.base, Pack := none }

/-- The static variable `partial` applied to a function and a pack,
`partial(f, pack)` (partial.hpp:136-140, 163-167): `make<partial_adaptor>`
yields `partial_adaptor<F, Pack>` through the two-argument constructor. -/
def make_partial_adaptor_pack {α β : Type} (f : Callable α β) (seq : pack_base α) :
    partial_adaptor α β :=
  { F := f, Pack := some seq }

/-- The call operator `partial_adaptor_invoke::operator()` (partial.hpp:93-110):
the stored pack joined with the forwarded new arguments is called with the
function.  The overload exists exactly when that call is well-formed. -/
def partial_adaptor_invoke {α β : Type} (F : Callable α β) (Pack : pack_base α)
    (xs : List α) : Option β :=
  (pack_join [Pack, pack_forward xs]).call F.call

/-- The call operator `partial_adaptor_join::operator()` (partial.hpp:131-141):
enabled when `sizeof...(Ts) + Pack::fit_function_param_limit::value` is below
`function_param_limit<F>::value`; it builds a new adaptor over the joined pack.
Both summands count template arguments, which stay far below `SIZE_MAX`, so the
`std::size_t` sum does not wrap and is taken in the natural numbers. -/
def partial_adaptor_join {α β : Type} (F : Callable α β) (Pack : pack_base α)
    (xs : List α) : Option (partial_adaptor α β) :=
  if xs.length + Pack.fit_function_param_limit < function_param_limit F then
    some (make_partial_adaptor_pack F (pack_join [Pack, pack_decay xs]))
  else
    none

/-- The call operator `partial_adaptor_pack::operator()` (partial.hpp:158-168):
enabled when `sizeof...(Ts) < function_param_limit<F>::value`; it builds an
adaptor over the decayed arguments. -/
def partial_adaptor_pack {α β : Type} (F : Callable α β) (xs : List α) :
    Option (partial_adaptor α β) :=
  if xs.length < function_param_limit F then
    some (make_partial_adaptor_pack F (pack_decay xs))
  else
    none

/-- The call operator of `partial_adaptor` (`using base::operator()`,
partial.hpp:210, 233).  For `partial_adaptor<F, void>` the base is
`conditional_adaptor<F, partial_adaptor_pack>` (partial.hpp:180-188), with `F`
the function left by the specialisations of partial.hpp:239-259 (the field `F`
of the adaptor); otherwise it is
`conditional_adaptor<partial_adaptor_invoke, partial_adaptor_join>`
(partial.hpp:170-178). -/
def partial_adaptor.call {α β : Type} (p : partial_adaptor α β) (xs : List α) :
    Option (partial_result α β) :=
  match p.Pack with
  | none =>
    conditional_adaptor
      (fun ts => (p.F.call ts).map partial_result.returned)
      (fun ts => (partial_adaptor_pack p.F ts).map partial_result.adaptor) xs
  | some pk =>
    conditional_adaptor
      (fun ts => (partial_adaptor_invoke p.F pk ts).map partial_result.returned)
      (fun ts => (partial_adaptor_join p.F pk ts).map partial_result.adaptor) xs

/-- Specification side: the captured arguments of an adaptor, in the order they
were supplied; the `void` specialisation holds none. -/
def partial_adaptor.captured {α β : Type} (p : partial_adaptor α β) : List α :=
  match p.Pack with
  | none => []
  | some pk => pk.elems

/-- A second call applied to what a first call produced, the `(ys...)` of
`partial(f)(xs...)(ys...)`.  A new adaptor is called through its own
`operator()`.  A plain result `r` of the wrapped function is called through the
`operator()` of its own type, which is given by `R` (`R r ys = none` when the
result type has no matching call operator, as for `int`). -/
def partial_result.call {α β : Type} (R : β → List α → Option β) :
    partial_result α β → List α → Option (partial_result α β)
  | partial_result.returned r, ys => (R r ys).map partial_result.returned
  | partial_result.adaptor p, ys => p.call ys

/-- The expression `partial(f)(xs...)(ys...)`. -/
def partial_twice {α β : Type} (R : β → List α → Option β) (f : function_class α β)
    (xs ys : List α) : Option (partial_result α β) :=
  match (make_partial_adaptor f).call xs with
  | none => none
  | some v => v.call R ys

/-- The function object `sum` of the example in partial.hpp:46-55: a call
operator with exactly two parameters, returning `x + y`. -/
def sum : Callable Int Int :=
  { call := fun xs =>
      match xs with
      | [x, y] => some (x + y)
      | _ => none
    fit_function_param_limit := none }

/-- A variadic sum, `template<class... Ts> int operator()(Ts... xs)`: it
accepts every argument count. -/
def variadic_sum : Callable Int Int :=
  { call := fun xs => some xs.sum
    fit_function_param_limit := none }

/-- The call operator of the type `int`: there is none. -/
def int_call : Int → List Int → Option Int :=
  fun _ _ => none

/-! ## unpack.hpp -/

/-- An argument of `unpack(f)(...)`, by what `unpack_sequence` knows of its
type (cv-qualifiers and references removed): a `std::tuple<Ts...>`
(unpack.hpp:279-287), a `detail::pack_base` (unpack.hpp:289-297), or a value of
a type that has only the primary template (unpack.hpp:111-115), such as `int`. -/
inductive Sequence (α : Type) where
  | tuple (t : List α)
  | pack (p : pack_base α)
  | other (x : α)

/-- The trait `is_unpackable<T>` (unpack.hpp:119-129, 167-172): false exactly
when `unpack_sequence<T>` declares `not_unpackable`, which only the primary
template does. -/
def is_unpackable {α : Type} : Sequence α → Bool
  | Sequence.tuple _ => true
  | Sequence.pack _ => true
  | Sequence.other _ => false

/-- Specification side: the logical elements of a sequence, in index order. -/
def Sequence.elements {α : Type} : Sequence α → List α
  | Sequence.tuple t => t
  | Sequence.pack p => p.elems
  | Sequence.other _ => []

/-- Specification side: the elements of the first sequence, then those of the
second, and so on. -/
def concat_elements {α : Type} : List (Sequence α) → List α
  | [] => []
  | s :: ss => s.elements ++ concat_elements ss

/-- Modelled from the spec: `always(x)` of the absent `always.hpp`, the
function object that returns `x` for every argument list. -/
def always {α β : Type} (x : β) : List α → Option β :=
  fun _ => some x

/-- The index sequence of `make_tuple_gens(t)` (unpack.hpp:252-257):
`gens<std::tuple_size<Sequence>::value>::type`, that is `seq<0, ..., n-1>`
(`detail/seq.hpp` is not among the sources). -/
def make_tuple_gens {α : Type} (t : List α) : List Nat :=
  List.range t.length

/-- The pack expansion `std::get<N>(t)...` over the indices `N...`; an index
outside the tuple makes the expression ill-formed. -/
def std_get_each {α : Type} (t : List α) : List Nat → Option (List α)
  | [] => some []
  | N :: Ns =>
    match t[N]? with
    | none => none
    | some x =>
      match std_get_each t Ns with
      | none => none
      | some xs => some (x :: xs)

/-- The function `unpack_tuple(f, t, seq<N...>)` (unpack.hpp:259-275):
`f(std::get<N>(t)...)`. -/
def unpack_tuple {α β : Type} (f : List α → Option β) (t : List α) (seq : List Nat) :
    Option β :=
  match std_get_each t seq with
  | none => none
  | some xs => f xs

/-- Modelled from the spec: `unpack_pack_base(f, p)` of the absent `pack.hpp`,
the expansion rule of a pack: the pack is called with the function. -/
def unpack_pack_base {α β : Type} (f : List α → Option β) (p : pack_base α) : Option β :=
  p.call f

/-- The static member `unpack_sequence<Sequence>::apply(f, s)`: the tuple rule
(unpack.hpp:279-287), the pack rule (unpack.hpp:289-297); the primary template
has no `apply`, so the expression is ill-formed. -/
def unpack_sequence_apply {α β : Type} (f : List α → Option β) : Sequence α → Option β
  | Sequence.tuple t => unpack_tuple f t (make_tuple_gens t)
  | Sequence.pack p => unpack_pack_base f p
  | Sequence.other _ => none

/-- The function `unpack_impl(f, s)` (unpack.hpp:131-136). -/
def unpack_impl {α β : Type} (f : List α → Option β) (s : Sequence α) : Option β :=
  unpack_sequence_apply f s

/-- The tag type `private_unpack_type` (unpack.hpp:138). -/
inductive private_unpack_type where
  | mk
deriving DecidableEq, Repr

/-- The assertion of `unpack_check<Sequence>()` (unpack.hpp:140-151): unpacking
the sequence into `always(private_unpack_type())` must give a
`private_unpack_type`. -/
def unpack_check {α : Type} (s : Sequence α) : Bool :=
  decide (unpack_impl (always private_unpack_type.mk) s = some private_unpack_type.mk)

/-- The function `unpack_simple(f, s)` (unpack.hpp:153-157): `unpack_impl`
behind the default template argument `unpack_check<Sequence>()`. -/
def unpack_simple {α β : Type} (f : List α → Option β) (s : Sequence α) : Option β :=
  if unpack_check s then unpack_impl f s else none

/-- The pack expansion `unpack_simple(pack_forward, s)...` of unpack.hpp:162:
each sequence is unpacked into `pack_forward`, giving one pack per sequence. -/
def unpack_simple_each {α : Type} : List (Sequence α) → Option (List (pack_base α))
  | [] => some []
  | s :: ss =>
    match unpack_simple (fun xs => some (pack_forward xs)) s with
    | none => none
    | some p =>
      match unpack_simple_each ss with
      | none => none
      | some ps => some (p :: ps)

/-- The function `unpack_join(f, s...)` (unpack.hpp:159-163): the packs of all
sequences are joined and the joined pack is called with `f`. -/
def unpack_join {α β : Type} (f : List α → Option β) (s : List (Sequence α)) : Option β :=
  match unpack_simple_each s with
  | none => none
  | some ps => (pack_join ps).call f

/-- The adaptor `unpack_adaptor<F>` (unpack.hpp:174-246).  It derives from the
function, so it keeps its typedefs.  It has two call operators: for one
unpackable argument (unpack.hpp:230-237), which goes to `unpack_simple`, and
for one or more unpackable arguments (unpack.hpp:239-245), which goes to
`unpack_join`; with one argument the non-variadic operator is the more
specialised one.  There is no operator for an empty argument list. -/
def unpack_adaptor {α β : Type} (F : Callable α β) : Callable (Sequence α) β :=
  { call := fun xs =>
      match xs with
      | [] => none
      | [x] => if is_unpackable x then unpack_simple F.call x else none
      | x :: ts =>
        if (x :: ts).all is_unpackable then unpack_join F.call (x :: ts) else none
    fit_function_param_limit := F.fit_function_param_limit }

/-- Specification side: inserting empty tuples into an argument list.
`InsertEmpty ss ss2` holds
when `ss2` is `ss` with any number of `std::tuple<>` values put in at any
positions. -/
inductive InsertEmpty {α : Type} : List (Sequence α) → List (Sequence α) → Prop where
  | done : InsertEmpty [] []
  | keep (s : Sequence α) {ss ss2 : List (Sequence α)} :
      InsertEmpty ss ss2 → InsertEmpty (s :: ss) (s :: ss2)
  | insert {ss ss2 : List (Sequence α)} :
      InsertEmpty ss ss2 → InsertEmpty ss (Sequence.tuple [] :: ss2)

/-! ## flow.hpp -/

/-- The class `flow_kernel<F1, F2>` (flow.hpp:79-96): the second function is
called with the single result of the first, which receives all the arguments;
the call is well-formed when both calls are.  The kernel derives from a
`compressed_pair`, which declares no parameter limit. -/
def flow_kernel {α β γ : Type} (F1 : Callable α β) (F2 : Callable β γ) : Callable α γ :=
  { call := fun xs =>
      match F1.call xs with
      | none => none
      | some r => F2.call [r]
    fit_function_param_limit := none }

/-- The class `flow_adaptor<F, Fs...>` (flow.hpp:99-125): with one function it
derives from that function alone; otherwise it is the kernel of the first
function and the adaptor of the rest. -/
def flow_adaptor {α : Type} : Callable α α → List (Callable α α) → Callable α α
  | F, [] => F
  | F, G :: Fs => flow_kernel F (flow_adaptor G Fs)

/-- Specification side: one stage of a chain applied to what the stages before
it produced; a stage that follows a rejected call produces nothing. -/
def flow_stage {α : Type} (acc : Option α) (G : Callable α α) : Option α :=
  match acc with
  | none => none
  | some r => G.call [r]

/-- The function object `increment` of test/flow.cpp:6-13. -/
def increment : Callable Int Int :=
  { call := fun xs =>
      match xs with
      | [x] => some (x + 1)
      | _ => none
    fit_function_param_limit := none }

/-- The function object `decrement` of test/flow.cpp:15-22. -/
def decrement : Callable Int Int :=
  { call := fun xs =>
      match xs with
      | [x] => some (x - 1)
      | _ => none
    fit_function_param_limit := none }

/-- The function object `negate` of test/flow.cpp:24-31. -/
def negate : Callable Int Int :=
  { call := fun xs =>
      match xs with
      | [x] => some (-x)
      | _ => none
    fit_function_param_limit := none }

/-! ## combine.hpp -/

/-- The pack expansion of combine.hpp:101 over the stored functions `Gs...` and
the arguments `xs...` together: the function at each position is called with
the argument at the same position.  Packs of different lengths cannot be
expanded together, and a function that rejects its argument makes the
expression ill-formed. -/
def combine_expand {α β : Type} : List (Callable α β) → List α → Option (List β)
  | [], [] => some []
  | G :: Gs, x :: xs =>
    match G.call [x] with
    | none => none
    | some y =>
      match combine_expand Gs xs with
      | none => none
      | some ys => some (y :: ys)
  | _, _ => none

/-- The call operator `combine_adaptor_base::operator()` (combine.hpp:92-102) of
`combine(f, gs...)`: `f` is called with the results of the expansion. -/
def combine_adaptor {α β γ : Type} (F : Callable β γ) (Gs : List (Callable α β)) :
    List α → Option γ :=
  fun xs =>
    match combine_expand Gs xs with
    | none => none
    | some ys => F.call ys

/-! ## fix.hpp -/

/-- A function object for `fix`.  Its call operator takes the wrapper as its
first parameter (`Self s`) and the call arguments after it; all it can do with
`s` is call it. -/
structure FixFunction (α β : Type) where
  call : (List α → Option β) → List α → Option β

/-- The class `fix_adaptor<F>` (fix.hpp:119-125): it derives from
`fix_adaptor_base<fix_adaptor<F>, F>`, which derives from the function. -/
structure fix_adaptor (α β : Type) where
  base_function : FixFunction α β

/-- The call operator `fix_adaptor_base::operator()` (fix.hpp:109-115):
`base_function()(derived_function(), xs...)`, where `derived_function()` is
this same adaptor.  The recursion of the wrapped function through the wrapper
runs on the call stack; the first parameter bounds the depth of nested calls of
the wrapper, and a call beyond it has no result. -/
def fix_adaptor.call {α β : Type} (d : fix_adaptor α β) : Nat → List α → Option β
  | 0, _ => none
  | depth + 1, xs => d.base_function.call (fun ys => d.call depth ys) xs

/-- The static variable `fix` (fix.hpp:127): `make<fix_adaptor>`. -/
def fix {α β : Type} (f : FixFunction α β) : fix_adaptor α β :=
  { base_function := f }

/-- The function object `factorial_t` of test/fix.cpp:8-15:
`x == 0 ? 1 : x * s(x-1)`, over unbounded integers. -/
def factorial_t : FixFunction Int Int :=
  { call := fun s xs =>
      match xs with
      | [x] =>
        if x = 0 then some 1
        else
          match s [x - 1] with
          | none => none
          | some r => some (x * r)
      | _ => none }

/-- The function object `factorial_move_t` of test/fix.cpp:17-27, which owns a
value `i` (set to 1 by its constructor): `x == 0 ? *i : x * s(x-1)`. -/
def factorial_move_t (i : Int) : FixFunction Int Int :=
  { call := fun s xs =>
      match xs with
      | [x] =>
        if x = 0 then some i
        else
          match s [x - 1] with
          | none => none
          | some r => some (x * r)
      | _ => none }

/-! ## decorate.hpp -/

/-- The class `decorator_invoke<F, T, D>` (decorate.hpp:49-106): the decorated
function, the datum and the decorator.  A decorator is a callable that takes
the datum, the function and the call arguments. -/
structure decorator_invoke (T F α β : Type) where
  base_function : F
  get_data : T
  get_decorator : T → F → List α → Option β

/-- The call operator `decorator_invoke::operator()` (decorate.hpp:96-105):
`get_decorator()(get_data(), base_function(), xs...)`. -/
def decorator_invoke.call {T F α β : Type} (d : decorator_invoke T F α β) (xs : List α) :
    Option β :=
  d.get_decorator d.get_data d.base_function xs

/-- The class `decoration<T, D>` (decorate.hpp:108-132): the datum and the
decorator. -/
structure decoration (T F α β : Type) where
  get_data : T
  get_decorator : T → F → List α → Option β

/-- The call operator `decoration::operator()` (decorate.hpp:127-131): it builds
the `decorator_invoke` of the function, the datum and the decorator. -/
def decoration.call {T F α β : Type} (d : decoration T F α β) (f : F) :
    decorator_invoke T F α β :=
  { base_function := f, get_data := d.get_data, get_decorator := d.get_decorator }

/-- The call operator `decorate_adaptor::operator()` (decorate.hpp:150-154): it
builds the `decoration` of the datum and the decorator. -/
def decorate_adaptor {T F α β : Type} (D : T → F → List α → Option β) (x : T) :
    decoration T F α β :=
  { get_data := x, get_decorator := D }

/-! ## repeat.hpp -/

/-- The class template `repeater<N>` (repeat.hpp:60-79): `repeater<0>` takes one
value and returns it; `repeater<N>` calls `repeater<N-1>` with the function and
`f(xs...)`.  `N` is taken non-negative: a negative `N` never reaches
`repeater<0>`. -/
def repeater {α : Type} : Nat → Callable α α → List α → Option α
  | 0, _, [x] => some x
  | 0, _, _ => none
  | N + 1, f, xs =>
    match f.call xs with
    | none => none
    | some r => repeater N f [r]

/-- The function object `repeat_decorator` (repeat.hpp:81-92):
`repeater<T::value>()(f, xs...)`. -/
def repeat_decorator {α : Type} (T : Nat) (f : Callable α α) (xs : List α) : Option α :=
  repeater T f xs

/-- The expression `repeat(N)(f)(xs...)`; `repeat` is
`decorate_adaptor<repeat_decorator>` (repeat.hpp:96). -/
def repeat_adaptor {α : Type} (N : Nat) (f : Callable α α) (xs : List α) : Option α :=
  ((decorate_adaptor repeat_decorator N).call f).call xs

/-! ## repeat_while.hpp -/

/-- The value of `compute_predicate<P, T>::type::value` (repeat_while.hpp:78-82):
the predicate called on a value of type `T`. -/
def compute_predicate {α : Type} (P : Callable α Bool) (x : α) : Option Bool :=
  P.call [x]

/-- The class template `while_repeater<B>` (repeat_while.hpp:84-107):
`while_repeater<false>` takes one value and returns it; `while_repeater<true>`
calls `while_repeater<B2>` with `f(xs...)`, where `B2` is the predicate on the
type of `f(xs...)`.  The recursion is one of template instantiations; the first
parameter bounds their depth, and an instantiation beyond it does not build. -/
def while_repeater {α : Type} (f : Callable α α) (p : Callable α Bool) :
    Nat → Bool → List α → Option α
  | _, false, [x] => some x
  | _, false, _ => none
  | 0, true, _ => none
  | depth + 1, true, xs =>
    match f.call xs with
    | none => none
    | some r =>
      match compute_predicate p r with
      | none => none
      | some B2 => while_repeater f p depth B2 [r]

/-- The function object `repeat_while_decorator` (repeat_while.hpp:109-123):
`while_repeater<B>()(f, p, xs...)`, where `B` is the predicate on the type of
`std::declval<F>()(xs...)`. -/
def repeat_while_decorator {α : Type} (depth : Nat) (p : Callable α Bool)
    (f : Callable α α) (xs : List α) : Option α :=
  match f.call xs with
  | none => none
  | some r =>
    match compute_predicate p r with
    | none => none
    | some B => while_repeater f p depth B xs

/-- The expression `repeat_while(pred)(f)(xs...)`; `repeat_while` is
`decorate_adaptor<repeat_while_decorator>` (repeat_while.hpp:127). -/
def repeat_while {α : Type} (depth : Nat) (pred : Callable α Bool) (f : Callable α α)
    (xs : List α) : Option α :=
  ((decorate_adaptor (repeat_while_decorator depth) pred).call f).call xs

/-- The predicate `not_6` of test/repeat_while.cpp:15-23, on the value of an
integral constant. -/
def not_6 : Callable Int Bool :=
  { call := fun xs =>
      match xs with
      | [x] => some (decide (x ≠ 6))
      | _ => none
    fit_function_param_limit := none }

/-! ## pipable.hpp -/

/-- The class `pipe_closure<F, Pack>` (pipable.hpp:73-116): the function and
the pack of the arguments given so far. -/
structure pipe_closure (α β : Type) where
  F : Callable α β
  Pack : pack_base α

/-- The call operator of the nested class `pipe_closure::invoke<A>`
(pipable.hpp:98-109): the function called with the stored value `a` first and
the arguments `xs...` after it. -/
def pipe_closure.invoke {α β : Type} (c : pipe_closure α β) (a : α) : List α → Option β :=
  fun xs => c.F.call (a :: xs)

/-- The call operator `pipe_closure::operator()` (pipable.hpp:111-115): the pack
is called with `invoke<A&&>(a, this)`. -/
def pipe_closure.call {α β : Type} (c : pipe_closure α β) (a : α) : Option β :=
  c.Pack.call (c.invoke a)

/-- The function `make_pipe_closure` (pipable.hpp:118-122). -/
def make_pipe_closure {α β : Type} (f : Callable α β) (p : pack_base α) : pipe_closure α β :=
  { F := f, Pack := p }

/-- The call operator `pipe_pack::operator()` (pipable.hpp:136-140): enabled
when `sizeof...(Ts) < function_param_limit<F>::value`; it builds the closure of
the function and the forwarded arguments. -/
def pipe_pack {α β : Type} (F : Callable α β) (xs : List α) : Option (pipe_closure α β) :=
  if xs.length < function_param_limit F then
    some (make_pipe_closure F (pack_forward xs))
  else
    none

/-- What a call of a `pipable_adaptor` yields: the result of the function, or a
closure waiting for the piped value. -/
inductive pipable_result (α β : Type) where
  | returned (r : β)
  | closure (c : pipe_closure α β)

/-- The call operator of `pipable_adaptor<F>` (pipable.hpp:149-162), that of its
base `conditional_adaptor<F, pipe_pack>`. -/
def pipable_adaptor {α β : Type} (F : Callable α β) (xs : List α) :
    Option (pipable_result α β) :=
  conditional_adaptor
    (fun ts => (F.call ts).map pipable_result.returned)
    (fun ts => (pipe_pack F ts).map pipable_result.closure) xs

/-- The operator `a | p` for a `pipe_closure` (pipable.hpp:143-145): `p(a)`. -/
def operator_pipe {α β : Type} (a : α) (p : pipe_closure α β) : Option β :=
  p.call a

/-! ## partial.hpp: chained calls -/

/-- One more call `(g...)` applied to what the calls before it produced; nothing
can be called once a call has been rejected. -/
def partial_chain_step {α β : Type} (R : β → List α → Option β)
    (acc : Option (partial_result α β)) (g : List α) : Option (partial_result α β) :=
  match acc with
  | none => none
  | some v => v.call R g

/-- The expression `partial(f)(g1...)(g2...)...(gk...)`: each argument group is
applied to what the calls before it produced, starting from `partial(f)`. -/
def partial_chain {α β : Type} (R : β → List α → Option β) (f : function_class α β)
    (groups : List (List α)) : Option (partial_result α β) :=
  groups.foldl (partial_chain_step R) (some (partial_result.adaptor (make_partial_adaptor f)))

/-- Specification side: all the arguments of the groups, in order. -/
def concat_groups {α : Type} : List (List α) → List α
  | [] => []
  | g :: gs => g ++ concat_groups gs

/-! ## unpack.hpp: registered rules and the trait on types -/

/-- The type of a result, as far as `std::is_same` with `private_unpack_type`
(unpack.hpp:143-146) tells types apart: `private_unpack_type` itself
(unpack.hpp:138, a struct at namespace scope, which any rule can name), or
another type, numbered. -/
inductive result_type where
  | private_unpack_type
  | other (id : Nat)
deriving DecidableEq, Repr

/-- The body of a rule `unpack_sequence<S>::apply(f, s)` registered for a
sequence type `S` (unpack.hpp:70-93), by what it does with the function and
what it returns:
`invoke`: `return f(args...)`, with arguments taken from the sequence or not
(the example `s(std::forward<F>(f))` and the built-in rules are of this shape);
`value`: `return T()`, a value of a type of the rule's own, `f` not invoked;
`invoke_then_value`: `f(args...); return T()`, `f` invoked and its result
dropped;
`value_of_result_type`: `return decltype(f(args...))()`, a value-initialised
object of the type that `f` returns, `f` not invoked. -/
inductive unpack_rule (S α : Type) where
  | invoke (args : S → List α)
  | value (type : result_type)
  | invoke_then_value (args : S → List α) (type : result_type)
  | value_of_result_type (args : S → List α)

/-- What a rule returns: the object that the invocation of the function
returned, a value-initialised object of the function's result type, or a value
of a type of the rule's own. -/
inductive rule_value (β : Type) where
  | function_result (r : β)
  | result_type_value
  | own_value (type : result_type)

/-- The type of what a rule returns, `decltype(apply(f, s))`, for a function
whose result type is `R`. -/
def rule_value.type {β : Type} (R : result_type) : rule_value β → result_type
  | rule_value.function_result _ => R
  | rule_value.result_type_value => R
  | rule_value.own_value T => T

/-- Specification side: the arguments with which the body of a rule invokes the
function, `none` for a body that does not invoke it. -/
def unpack_rule.invoked_with {S α : Type} (rule : unpack_rule S α) (s : S) :
    Option (List α) :=
  match rule with
  | unpack_rule.invoke args => some (args s)
  | unpack_rule.value _ => none
  | unpack_rule.invoke_then_value args _ => some (args s)
  | unpack_rule.value_of_result_type _ => none

/-- The function `unpack_impl(f, s)` (unpack.hpp:131-136) for a sequence type
with a registered rule: what the rule's `apply(f, s)` returns; ill-formed when
the expression `f(args...)` in the body is. -/
def unpack_impl_rule {S α β : Type} (rule : unpack_rule S α)
    (f : List α → Option β) (s : S) : Option (rule_value β) :=
  match rule with
  | unpack_rule.invoke args => (f (args s)).map rule_value.function_result
  | unpack_rule.value T => some (rule_value.own_value T)
  | unpack_rule.invoke_then_value args T => (f (args s)).map (fun _ => rule_value.own_value T)
  | unpack_rule.value_of_result_type args =>
    (f (args s)).map (fun _ => rule_value.result_type_value)

/-- The assertion of `unpack_check<Sequence>()` (unpack.hpp:140-151) for a
sequence type with a registered rule: the type
`decltype(unpack_impl(always(private_unpack_type()), std::declval<Sequence>()))`
must be the same as `private_unpack_type`.  Only the type is compared; the
function `always(private_unpack_type())` returns a `private_unpack_type`. -/
def unpack_check_rule {S α : Type} (rule : unpack_rule S α) (s : S) : Bool :=
  match unpack_impl_rule rule (always private_unpack_type.mk) s with
  | none => false
  | some v =>
    decide (v.type result_type.private_unpack_type = result_type.private_unpack_type)

/-- The function `unpack_simple(f, s)` (unpack.hpp:153-157) for a sequence type
with a registered rule. -/
def unpack_simple_rule {S α β : Type} (rule : unpack_rule S α)
    (f : List α → Option β) (s : S) : Option (rule_value β) :=
  if unpack_check_rule rule s then unpack_impl_rule rule f s else none

/-- The types that the trait `is_unpackable` is asked about: `int`, `void`,
`std::tuple<Ts...>`, `detail::pack_base<...>`, any other class type (numbered),
and their cv-qualified and reference forms. -/
inductive CppType where
  | int
  | void
  | tuple (Ts : List CppType)
  | pack_base (Ts : List CppType)
  | user (id : Nat)
  | const (T : CppType)
  | volatile (T : CppType)
  | lvalue_ref (T : CppType)
  | rvalue_ref (T : CppType)

/-- The trait `std::remove_reference<T>::type`. -/
def remove_reference : CppType → CppType
  | CppType.lvalue_ref T => T
  | CppType.rvalue_ref T => T
  | T => T

/-- The trait `std::remove_cv<T>::type`: the top-level `const` and `volatile`
are removed. -/
def remove_cv : CppType → CppType
  | CppType.const T => remove_cv T
  | CppType.volatile T => remove_cv T
  | T => T

/-- Whether `unpack_sequence<S>` declares `not_unpackable`: the primary template
does (unpack.hpp:111-115); the specialisations for `std::tuple<Ts...>`
(unpack.hpp:279-287), for `detail::pack_base<T, Ts...>` (unpack.hpp:289-297)
and those registered by users (given by `registered`) do not. -/
def unpack_sequence_not_unpackable (registered : Nat → Bool) : CppType → Bool
  | CppType.tuple _ => false
  | CppType.pack_base _ => false
  | CppType.user id => !(registered id)
  | _ => true

/-- The trait `detail::is_unpackable_impl<S>` (unpack.hpp:119-129): true by the
primary template, false by the specialisation that is selected when
`unpack_sequence<S>::not_unpackable` names a type. -/
def is_unpackable_impl (registered : Nat → Bool) (S : CppType) : Bool :=
  if unpack_sequence_not_unpackable registered S then false else true

/-- The trait `is_unpackable<T>` (unpack.hpp:167-172) on a type:
`is_unpackable_impl` of `T` without reference and cv-qualifiers.  (The function
`is_unpackable` above is this trait at the type of an argument.) -/
def is_unpackable_type (registered : Nat → Bool) (T : CppType) : Bool :=
  is_unpackable_impl registered (remove_cv (remove_reference T))

/-- Specification side: whether an expansion rule, a specialisation of
`unpack_sequence`, is registered for the type `S`. -/
def has_expansion_rule (registered : Nat → Bool) : CppType → Bool
  | CppType.tuple _ => true
  | CppType.pack_base _ => true
  | CppType.user id => registered id
  | CppType.int => false
  | CppType.void => false
  | CppType.const _ => false
  | CppType.volatile _ => false
  | CppType.lvalue_ref _ => false
  | CppType.rvalue_ref _ => false

/-! ## flow.hpp: acceptance -/

/-- Specification side: the first function accepts the arguments and every
later stage accepts the result of the stage before it. -/
def flow_accepts {α : Type} : Callable α α → List (Callable α α) → List α → Prop
  | F, [], xs => ∃ r, F.call xs = some r
  | F, G :: Fs, xs => ∃ r, F.call xs = some r ∧ flow_accepts G Fs [r]

/-! ## match.hpp -/

/-- The functions of an overload set whose call operator is viable for the
arguments. -/
def viable_candidates {α β : Type} (Fs : List (Callable α β)) (xs : List α) :
    List (Callable α β) :=
  Fs.filter (fun F => (F.call xs).isSome)

/-- The call operator of `match_adaptor<Fs...>` (match.hpp:75-104): the class
derives from every function and brings every `operator()` into one overload
set (`using F::operator(); using base::operator();`).  A call with no viable
candidate is ill-formed and a call with one viable candidate goes to it.  Among
several viable candidates the choice is that of the overload ranking of the
language, which is the parameter `best` (`none` when the call is ambiguous). -/
def match_adaptor {α β : Type}
    (best : List (Callable α β) → List α → Option (Callable α β))
    (Fs : List (Callable α β)) : List α → Option β :=
  fun xs =>
    match viable_candidates Fs xs with
    | [] => none
    | [F] => F.call xs
    | F :: G :: Hs =>
      match best (F :: G :: Hs) xs with
      | none => none
      | some B => B.call xs

/-- The values of the example of match.hpp:39-61: an `int`, a `foo`, and a value
of some other type. -/
inductive match_value where
  | int (n : Int)
  | foo
  | bar
deriving DecidableEq, Repr

/-- The types of the values of the example. -/
inductive match_type where
  | int
  | foo
  | bar
deriving DecidableEq, Repr

/-- The type of a value of the example. -/
def match_value.type : match_value → match_type
  | match_value.int _ => match_type.int
  | match_value.foo => match_type.foo
  | match_value.bar => match_type.bar

/-- The function object `int_class` of match.hpp:39-45: `int operator()(int)`,
returning 1. -/
def int_class : Callable match_value match_value :=
  { call := fun xs =>
      match xs with
      | [match_value.int _] => some (match_value.int 1)
      | _ => none
    fit_function_param_limit := none }

/-- The function object `foo_class` of match.hpp:50-56: `foo operator()(foo)`,
returning `foo()`. -/
def foo_class : Callable match_value match_value :=
  { call := fun xs =>
      match xs with
      | [match_value.foo] => some match_value.foo
      | _ => none
    fit_function_param_limit := none }

/-! ## reverse_compress.hpp -/

/-- The function object `v_reverse_fold` (reverse_compress.hpp:78-93), called
as `v_reverse_fold()(f, state, xs...)`: with no `xs` it returns the state;
otherwise it is `f(v_reverse_fold()(f, state, rest...), x)` for the first `x`
of `xs`. -/
def v_reverse_fold {α : Type} (f : Callable α α) (state : α) : List α → Option α
  | [] => some state
  | x :: xs =>
    match v_reverse_fold f state xs with
    | none => none
    | some acc => f.call [acc, x]

/-- The call operator of `reverse_compress_adaptor<F, State>`
(reverse_compress.hpp:97-126), `v_reverse_fold()(f, state, xs...)`, and of the
specialisation `reverse_compress_adaptor<F, void>` (reverse_compress.hpp:129-150),
`v_reverse_fold()(f, xs...)`, where the first argument lands in the `State`
parameter; `v_reverse_fold` has no overload without a state.  `State = none` is
the specialisation for `void`. -/
def reverse_compress_adaptor {α : Type} (F : Callable α α) (State : Option α) :
    List α → Option α :=
  fun xs =>
    match State with
    | some state => v_reverse_fold F state xs
    | none =>
      match xs with
      | [] => none
      | x :: rest => v_reverse_fold F x rest

/-- The function object `max_f` of the example of reverse_compress.hpp:58-66:
`x > y ? x : y`. -/
def max_f : Callable Int Int :=
  { call := fun xs =>
      match xs with
      | [x, y] => some (if x > y then x else y)
      | _ => none
    fit_function_param_limit := none }

/-- A binary function that is not commutative: `x - y`. -/
def minus_f : Callable Int Int :=
  { call := fun xs =>
      match xs with
      | [x, y] => some (x - y)
      | _ => none
    fit_function_param_limit := none }

/-! ## fix.hpp: the function passed as its own first argument -/

/-- The call operator of `factorial_t` (test/fix.cpp:8-15) on plain integer
arguments, which is what a call `s(x-1)` is when `s` is a `factorial_t`: the
operator has the two parameters `(Self s, T x)`, so a call with one argument is
ill-formed, and with two integers the body calls the integer `s`, which is
ill-formed as well. -/
def factorial_t_plain : List Int → Option Int :=
  fun _ => none

/-! ## apply.hpp -/

/-- A pointer to member `T Base::*` as `apply` uses it: `access ref args` is
the expression `(ref.*pm)(args...)` for a member function, and `ref.*pm` for a
data member and no arguments; `none` when `ref` is not an object of the class
or the arguments do not fit. -/
structure member_pointer (α β : Type) where
  access : α → List α → Option β

/-- What `apply` is given as its first argument: a pointer to member, or
anything else that is called as `f(xs...)`. -/
inductive apply_function (α β : Type) where
  | object (F : Callable α β)
  | member (pm : member_pointer α β)

/-- The call operators of `apply_f` (apply.hpp:105-169, the branch without
manual deduction).  The overloads of apply.hpp:146-160 use `ref.*pm` and
`(*ptr).*pm`, which is well-formed only for a pointer to member: on the object
first, on `*ptr` (given by `deref`) otherwise.  The overload of
apply.hpp:163-168 is `f(xs...)`, which is ill-formed for a pointer to
member. -/
def apply_f {α β : Type} (deref : α → Option α) : apply_function α β → List α → Option β
  | apply_function.object F, xs => F.call xs
  | apply_function.member _, [] => none
  | apply_function.member pm, ref :: args =>
    match pm.access ref args with
    | some r => some r
    | none =>
      match deref ref with
      | none => none
      | some obj => pm.access obj args

/-! ## infix.hpp -/

/-- The class `postfix_adaptor<T, F>` (infix.hpp:67-98): the function and the
left operand `x`. -/
structure postfix_adaptor (α β : Type) where
  F : Callable α β
  x : α

/-- The call operator `postfix_adaptor::operator()` (infix.hpp:85-90):
`f(x, xs...)`. -/
def postfix_adaptor.call {α β : Type} (p : postfix_adaptor α β) (xs : List α) : Option β :=
  p.F.call (p.x :: xs)

/-- The operator `postfix_adaptor::operator>` (infix.hpp:92-97): `f(x, a)`. -/
def postfix_adaptor.operator_gt {α β : Type} (p : postfix_adaptor α β) (a : α) : Option β :=
  p.F.call [p.x, a]

/-- The function `make_postfix_adaptor(x, f)` (infix.hpp:100-104). -/
def make_postfix_adaptor {α β : Type} (x : α) (f : Callable α β) : postfix_adaptor α β :=
  { F := f, x := x }

/-- The class `infix_adaptor<F>` (infix.hpp:107-132): it derives from the
function, which `base_function` returns. -/
structure infix_adaptor (α β : Type) where
  base_function : Callable α β

/-- The call operator `infix_adaptor::operator()` (infix.hpp:127-131): the
function called with the arguments. -/
def infix_adaptor.call {α β : Type} (i : infix_adaptor α β) (xs : List α) : Option β :=
  i.base_function.call xs

/-- The static variable of infix.hpp:163 applied to a function:
`make<infix_adaptor>`. -/
def make_infix_adaptor {α β : Type} (f : Callable α β) : infix_adaptor α β :=
  { base_function := f }

/-- The operator `x < i` for an `infix_adaptor` (infix.hpp:134-136):
`make_postfix_adaptor(x, i.base_function(x))`. -/
def operator_lt {α β : Type} (x : α) (i : infix_adaptor α β) : postfix_adaptor α β :=
  make_postfix_adaptor x i.base_function

/-! ## limit.hpp: the decorator form -/

/-- The call operator `make_limit_f<N>::operator()` (limit.hpp:89-99):
`limit_adaptor<N, F>(f)`. -/
def make_limit_f {α β : Type} (N : Nat) (f : Callable α β) : Callable α β :=
  { call := f.call, fit_function_param_limit := some N }

/-- The call operator `limit_f::operator()` (limit.hpp:101-108) followed by the
call of its result, `limit(N)(f)`: `make_limit_f<N>` for the value `N` of the
integral constant. -/
def limit_f {α β : Type} (N : Nat) (f : Callable α β) : Callable α β :=
  make_limit_f N f

/-! ## reveal.hpp -/

/-- The primary template `get_failure<F>` (reveal.hpp:81-95): the type that
`of<Ts...>::apply` names is the type of the call expression `f(ts...)`. -/
def get_failure {α β : Type} (F : Callable α β) : List α → Option β :=
  F.call

/-- The call operator `reveal_failure::operator()` (reveal.hpp:108-126): it is
enabled only when `is_callable<F, Ts...>` is false, and then its return type is
the type that the failure names. -/
def reveal_failure {α β : Type} (F : Callable α β) (Failure : List α → Option β) :
    Callable α β :=
  { call := fun xs => if (F.call xs).isSome then none else Failure xs
    fit_function_param_limit := none }

/-- The overloads of `traverse_failure<F>` (reveal.hpp:128-144): one
`reveal_failure` for the failure of the function, or one for each of the
children of that failure. -/
def traverse_failure {α β : Type} (F : Callable α β)
    (Failures : List (List α → Option β)) : List (Callable α β) :=
  Failures.map (reveal_failure F)

/-- The class `reveal_adaptor<F>` (reveal.hpp:213-222): it derives from
`traverse_failure` and from the function, and brings the call operators of both
into one overload set, as `match_adaptor` does. -/
def reveal_adaptor {α β : Type}
    (best : List (Callable α β) → List α → Option (Callable α β))
    (Failures : List (List α → Option β)) (F : Callable α β) : Callable α β :=
  { call := match_adaptor best (traverse_failure F Failures ++ [F])
    fit_function_param_limit := F.fit_function_param_limit }

/-- The values of test/reveal.cpp:10-22: objects of the empty classes `t1`,
`t2`, `t3`, and integers. -/
inductive reveal_value where
  | t1
  | t2
  | t3
  | int (n : Int)
deriving DecidableEq, Repr

/-- The function object `f1` of test/reveal.cpp:19: `int operator()(t1)`,
returning 1. -/
def reveal_f1 : Callable reveal_value reveal_value :=
  { call := fun xs =>
      match xs with
      | [reveal_value.t1] => some (reveal_value.int 1)
      | _ => none
    fit_function_param_limit := none }

/-- The function object `f2` of test/reveal.cpp:20: `int operator()(t2)`,
returning 2. -/
def reveal_f2 : Callable reveal_value reveal_value :=
  { call := fun xs =>
      match xs with
      | [reveal_value.t2] => some (reveal_value.int 2)
      | _ => none
    fit_function_param_limit := none }

/-- The function object `f3` of test/reveal.cpp:21: `int operator()(t3)`,
returning 3. -/
def reveal_f3 : Callable reveal_value reveal_value :=
  { call := fun xs =>
      match xs with
      | [reveal_value.t3] => some (reveal_value.int 3)
      | _ => none
    fit_function_param_limit := none }

/-- The function `f` of test/reveal.cpp:24, `conditional_adaptor<f1, f2, f3>`. -/
def reveal_conditional : Callable reveal_value reveal_value :=
  { call := conditional_adaptor reveal_f1.call (conditional_adaptor reveal_f2.call reveal_f3.call)
    fit_function_param_limit := none }

/-- The function `factorial` of test/fix.cpp:29, `fix_adaptor<factorial_t>`, as
a callable with a call stack of the given depth. -/
def factorial (depth : Nat) : Callable Int Int :=
  { call := (fix factorial_t).call depth
    fit_function_param_limit := none }

/-! ## protect.hpp -/

/-- The class `protect_adaptor<F>` (protect.hpp:46-53): it derives from the
function and declares nothing but its constructor and a tag. -/
def protect_adaptor {α β : Type} (F : Callable α β) : Callable α β :=
  { call := F.call, fit_function_param_limit := F.fit_function_param_limit }

/-! ## partial.hpp: calls as steps on the adaptor object -/

/-- A class of function objects with their state: `φ` is what an object of
the class holds (its data members, the captures of a lambda).  `call s xs` is a
call `f(xs...)` on an object in state `s`: ill-formed (`none`), or the result
together with the state the call leaves the object in, which is `s` itself for
a `const` call operator.  `moved_from s` is the state that the move
constructor leaves in an object it has moved from (`F` is required to be
MoveConstructible, partial.hpp:38-41); it is `s` itself for a class that is
copied when moved. -/
structure function_object (φ α β : Type) where
  call : φ → List α → Option (β × φ)
  fit_function_param_limit : Option Nat
  moved_from : φ → φ

/-- The function object in state `s` as a callable: what a call of it returns. -/
def function_object.callable {φ α β : Type} (o : function_object φ α β) (s : φ) :
    Callable α β :=
  { call := fun xs => (o.call s xs).map Prod.fst
    fit_function_param_limit := o.fit_function_param_limit }

/-- An object of class `partial_adaptor<F, Pack>` (partial.hpp:192-237): its
two base subobjects, the function in its state and the pack (`none` for
`partial_adaptor<F, void>`, which has no pack). -/
structure partial_object (φ α : Type) where
  F : φ
  Pack : Option (pack_base α)

/-- The adaptor that the object is, with its function as a callable. -/
def partial_object.adaptor {φ α β : Type} (o : function_object φ α β)
    (p : partial_object φ α) : partial_adaptor α β :=
  { F := o.callable p.F, Pack := p.Pack }

/-- Specification side: the captured arguments of the object. -/
def partial_object.captured {φ α : Type} (p : partial_object φ α) : List α :=
  match p.Pack with
  | none => []
  | some pk => pk.elems

/-- What a call of a `partial_adaptor` object yields: the result of the
function, or a new adaptor object. -/
inductive partial_step_result (φ α β : Type) where
  | returned (r : β)
  | adaptor (q : partial_object φ α)

/-- The result of a call on an object as a result of the adaptor. -/
def partial_step_result.value {φ α β : Type} (o : function_object φ α β) :
    partial_step_result φ α β → partial_result α β
  | partial_step_result.returned r => partial_result.returned r
  | partial_step_result.adaptor q => partial_result.adaptor (q.adaptor o)

/-- A call `p(ys...)` as a step on the object `p`: the object after the call and
what the call returns.  The call operators are `const` member functions; what
they do to the two subobjects is read off their bodies.

The pack is only read: `get_pack` is cast to `const Pack&` and given to
`pack_join` (partial.hpp:106, 140), which builds a new pack.

The function is cast to `F&&` (`BOOST_FIT_RETURNS_C_CAST(F&&)`, a C-style cast
that removes the `const`, returns.hpp:143).  In `partial_adaptor_invoke`
(partial.hpp:104-109) the joined pack is called with it, and the pack calls
the function with its elements: the object is left in the state the call of
the function leaves it in.  In `partial_adaptor_join` (partial.hpp:136-141)
and `partial_adaptor_pack` (partial.hpp:163-167) it is given to `partial`,
whose call operator takes its arguments by value (`operator()(Fs... fs)`,
make.hpp:21-25): the parameter is move-constructed from the function of `p`,
the new adaptor holds the function as it was, and `p` holds a moved-from
function.

In `partial_adaptor<F, void>` the first alternative of the
`conditional_adaptor` is the function itself (partial.hpp:180-188); the state
that its call leaves is kept in the same way.

A call that is rejected is ill-formed and evaluates nothing. -/
def partial_object.step {φ α β : Type} (o : function_object φ α β) (p : partial_object φ α)
    (ys : List α) : partial_object φ α × Option (partial_step_result φ α β) :=
  match p.Pack with
  | none =>
    match o.call p.F ys with
    | some (r, s) => ({ F := s, Pack := none }, some (partial_step_result.returned r))
    | none =>
      match partial_adaptor_pack (o.callable p.F) ys with
      | some q =>
        ({ F := o.moved_from p.F, Pack := none },
          some (partial_step_result.adaptor { F := p.F, Pack := q.Pack }))
      | none => (p, none)
  | some pk =>
    match (pack_join [pk, pack_forward ys]).call (o.call p.F) with
    | some (r, s) => ({ F := s, Pack := some pk }, some (partial_step_result.returned r))
    | none =>
      match partial_adaptor_join (o.callable p.F) pk ys with
      | some q =>
        ({ F := o.moved_from p.F, Pack := some pk },
          some (partial_step_result.adaptor { F := p.F, Pack := q.Pack }))
      | none => (p, none)

/-- The call of a partial adaptor in one formula: the wrapped function is tried
on the captured arguments followed by the new ones; when it rejects them, a new
adaptor over the extended pack is returned if the extended size is below the
parameter limit, and the call is rejected otherwise. -/
theorem partial_adaptor_call_eq {α β : Type} (p : partial_adaptor α β) (ys : List α) :
    p.call ys =
      match p.F.call (p.captured ++ ys) with
      | some r => some (partial_result.returned r)
      | none =>
        if p.captured.length + ys.length < function_param_limit p.F then
          some (partial_result.adaptor
            (make_partial_adaptor_pack p.F ⟨p.captured ++ ys⟩))
        else none := by
  obtain ⟨F, pk⟩ := p
  cases pk with
  | none =>
    simp only [partial_adaptor.call, partial_adaptor.captured, conditional_adaptor,
      partial_adaptor_pack, pack_decay, List.nil_append, List.length_nil, Nat.zero_add]
    cases hF : F.call ys with
    | some r => simp
    | none =>
      by_cases hlim : ys.length < function_param_limit F
      · simp [hlim]
      · simp [hlim]
  | some pk =>
    simp only [partial_adaptor.call, partial_adaptor.captured, conditional_adaptor,
      partial_adaptor_invoke, partial_adaptor_join, pack_join, pack_forward, pack_decay,
      pack_base.call, pack_base.fit_function_param_limit, List.append_nil]
    cases hF : F.call (pk.elems ++ ys) with
    | some r => simp
    | none =>
      by_cases hlim : pk.elems.length + ys.length < function_param_limit F
      · have hlim2 : ys.length + pk.elems.length < function_param_limit F := by omega
        simp [hlim, hlim2]
      · have hlim2 : ¬ ys.length + pk.elems.length < function_param_limit F := by omega
        simp [hlim, hlim2]

/-- C1, as amended: for every callable `f` and every split `xs`, `ys` such that
`f` rejects `xs` alone, `size(xs)` is below the parameter limit of `f`, and `f`
accepts `xs ++ ys` with result `r`: `partial(f)(xs...)(ys...)` is `r`, whatever
the call operator `R` of the result type is.  The split point is arbitrary
otherwise; `xs` may be empty.  The function is of any class: for a
`pipable_adaptor<G>` the conditions are those of the function `G` that the
adaptor derives from (`f.base`; for any other class `f.base` is `f`). -/
theorem partial_split_amended {α β : Type} (R : β → List α → Option β)
    (f : function_class α β) (xs ys : List α) (r : β) (hrej : f.base.call xs = none)
    (hlim : xs.length < function_param_limit f.base)
    (hacc : f.base.call (xs ++ ys) = some r) :
    partial_twice R f xs ys = some (partial_result.returned r) := by
  have h1 := partial_adaptor_call_eq (make_partial_adaptor f) xs
  simp only [make_partial_adaptor, partial_adaptor.captured, List.nil_append, hrej,
    List.length_nil, Nat.zero_add, hlim, if_true] at h1
  have h2 := partial_adaptor_call_eq (make_partial_adaptor_pack f.base ⟨xs⟩) ys
  simp only [make_partial_adaptor_pack, partial_adaptor.captured, hacc] at h2
  simp only [partial_twice, make_partial_adaptor, h1, partial_result.call,
    make_partial_adaptor_pack, h2]

/-- Witness of C1 as amended: `partial(sum)(1)(2) == sum(1, 2) == 3`, the
example of partial.hpp:55. -/
theorem partial_split_amended_witness :
    sum.call [1] = none ∧ [(1 : Int)].length < function_param_limit sum ∧
      sum.call ([1] ++ [2]) = some 3 ∧
      partial_twice int_call (function_class.function sum) [1] [2]
        = some (partial_result.returned 3) :=
  ⟨rfl, by decide, rfl,
    partial_split_amended int_call (function_class.function sum) [1] [2] 3 rfl (by decide) rfl⟩

/-- C1 fails as stated, at three splits of an accepted argument list.
(1) `f` accepts the prefix: `variadic_sum` accepts `(1, 2)`, yet
`partial(variadic_sum)(1)` already calls it, and `(2)` is then applied to the
`int` result.  (2) `ys` empty: `sum` accepts `(1, 2)`, `partial(sum)(1, 2)` is
`3`, and `3()` is ill-formed.  (3) the prefix reaches the parameter limit:
`limit_c<1>(sum)` accepts `(1, 2)`, yet `partial(limit_c<1>(sum))(1)` is
rejected. -/
theorem partial_split_counterexample :
    (variadic_sum.call ([1] ++ [2]) = some 3 ∧
      partial_twice int_call (function_class.function variadic_sum) [1] [2] = none) ∧
    (sum.call ([1, 2] ++ []) = some 3 ∧
      partial_twice int_call (function_class.function sum) [1, 2] [] = none) ∧
    ((limit_c 1 sum).call ([1] ++ [2]) = some 3 ∧
      partial_twice int_call (function_class.function (limit_c 1 sum)) [1] [2] = none) :=
  ⟨⟨rfl, rfl⟩, ⟨rfl, rfl⟩, ⟨rfl, rfl⟩⟩

/-- C2: an adaptor over `f` that holds the captured arguments `cs`, called
with `ys` such that `f` accepts `cs ++ ys` with result `r`, returns `r`: the
function is invoked with the captured arguments first, in the order they were
supplied, followed by `ys` in order.  The function is of any class `t`; `f` is
the function the adaptor derives from (`t.base`: `g` for a `pipable_adaptor`
over `g`, `t` itself otherwise).  The statement holds of every adaptor over
`f` holding `cs`, of the adaptor that `partial(f, pack(cs...))` builds, and,
with nothing captured, of `partial(t)`. -/
theorem partial_invoke_captured_then_new {α β : Type} (t : function_class α β)
    (cs ys : List α) (r : β) (hacc : t.base.call (cs ++ ys) = some r) :
    (∀ p : partial_adaptor α β, p.F = t.base → p.captured = cs →
      p.call ys = some (partial_result.returned r)) ∧
    (make_partial_adaptor_pack t.base ⟨cs⟩).call ys = some (partial_result.returned r) ∧
    (cs = [] → (make_partial_adaptor t).call ys = some (partial_result.returned r)) := by
  have hall : ∀ p : partial_adaptor α β, p.F = t.base → p.captured = cs →
      p.call ys = some (partial_result.returned r) := by
    intro p hF hcs
    rw [partial_adaptor_call_eq, hF, hcs, hacc]
  refine ⟨hall, hall _ rfl rfl, ?_⟩
  intro hcs
  exact hall _ rfl hcs.symm

/-- Witness of C2.  The adaptor over `sum` holding `1`, called with `2`, is 3.
For `minus`, which is not commutative, the adaptor holding `5` called with `3`
is `5 - 3`; and `partial(pipable(minus))` is an adaptor over `minus`: called
with `(5, 3)` it is 2, and called with `(5)` it is the adaptor over `minus`
holding `5`, whereas `pipable(minus)(5)` itself is a pipe closure. -/
theorem partial_invoke_captured_then_new_witness :
    (sum.call ([1] ++ [2]) = some 3 ∧
      (make_partial_adaptor_pack sum ⟨[1]⟩).call [2] = some (partial_result.returned 3)) ∧
    (minus_f.call ([5] ++ [3]) = some 2 ∧
      (make_partial_adaptor_pack minus_f ⟨[5]⟩).call [3]
        = some (partial_result.returned 2)) ∧
    (minus_f.call ([] ++ [5, 3]) = some 2 ∧
      (make_partial_adaptor
          (function_class.pipable_adaptor (function_class.function minus_f))).call [5, 3]
        = some (partial_result.returned 2)) ∧
    (make_partial_adaptor
        (function_class.pipable_adaptor (function_class.function minus_f))).call [5]
      = some (partial_result.adaptor (make_partial_adaptor_pack minus_f (pack_decay [5]))) ∧
    pipable_adaptor minus_f [5]
      = some (pipable_result.closure (make_pipe_closure minus_f (pack_forward [5]))) :=
  ⟨⟨rfl,
      (partial_invoke_captured_then_new (function_class.function sum) [1] [2] 3 rfl).2.1⟩,
    ⟨rfl,
      (partial_invoke_captured_then_new (function_class.function minus_f) [5] [3] 2
        rfl).2.1⟩,
    ⟨rfl,
      (partial_invoke_captured_then_new
        (function_class.pipable_adaptor (function_class.function minus_f)) [] [5, 3] 2
        rfl).2.2 rfl⟩,
    rfl, rfl⟩

/-- C3: an adaptor over `f` with captured arguments `cs` (none for a fresh
`partial(f)`), called with `ys` such that `f` rejects `cs ++ ys` and
`size(cs) + size(ys)` is below the parameter limit of `f`: the call is
well-formed and returns a new adaptor over the same `f` whose captured list is
exactly `cs ++ ys`. -/
theorem partial_accumulate {α β : Type} (p : partial_adaptor α β) (ys : List α)
    (hrej : p.F.call (p.captured ++ ys) = none)
    (hlim : p.captured.length + ys.length < function_param_limit p.F) :
    ∃ q : partial_adaptor α β,
      p.call ys = some (partial_result.adaptor q) ∧ q.F = p.F ∧
        q.captured = p.captured ++ ys := by
  refine ⟨make_partial_adaptor_pack p.F ⟨p.captured ++ ys⟩, ?_, rfl, rfl⟩
  rw [partial_adaptor_call_eq, hrej]
  simp [hlim]

/-- Witness of C3: a fresh `partial(sum)` called with `1`. -/
theorem partial_accumulate_witness :
    sum.call ((make_partial_adaptor (function_class.function sum)).captured ++ [1]) = none ∧
      (make_partial_adaptor (function_class.function sum)).captured.length
          + [(1 : Int)].length < function_param_limit sum ∧
      ∃ q : partial_adaptor Int Int,
        (make_partial_adaptor (function_class.function sum)).call [1]
            = some (partial_result.adaptor q) ∧
          q.F = (make_partial_adaptor (function_class.function sum)).F ∧
          q.captured = (make_partial_adaptor (function_class.function sum)).captured ++ [1] :=
  ⟨rfl, by decide,
    partial_accumulate (make_partial_adaptor (function_class.function sum)) [1] rfl
      (by decide)⟩

/-- C4: an adaptor over `f` with captured arguments `cs`, called with `ys` such
that `f` rejects `cs ++ ys` and `size(cs) + size(ys)` has reached the parameter
limit of `f`: the call is rejected; it yields neither a result of `f` nor a new
adaptor. -/
theorem partial_reject_at_limit {α β : Type} (p : partial_adaptor α β) (ys : List α)
    (hrej : p.F.call (p.captured ++ ys) = none)
    (hlim : function_param_limit p.F ≤ p.captured.length + ys.length) :
    p.call ys = none := by
  rw [partial_adaptor_call_eq, hrej]
  have hnot : ¬ p.captured.length + ys.length < function_param_limit p.F := by omega
  simp [hnot]

/-- Witness of C4: `limit_c<2>(sum)` holding `1`, called with a second pack
that `sum` cannot be called with. -/
theorem partial_reject_at_limit_witness :
    (limit_c 2 sum).call
        ((make_partial_adaptor_pack (limit_c 2 sum) ⟨[1]⟩).captured ++ [2, 3]) = none ∧
      function_param_limit (limit_c 2 sum)
        ≤ (make_partial_adaptor_pack (limit_c 2 sum) ⟨[1]⟩).captured.length
          + [(2 : Int), 3].length ∧
      (make_partial_adaptor_pack (limit_c 2 sum) ⟨[1]⟩).call [2, 3] = none :=
  ⟨rfl, by decide,
    partial_reject_at_limit (make_partial_adaptor_pack (limit_c 2 sum) ⟨[1]⟩) [2, 3] rfl
      (by decide)⟩

/-- C5, as amended: for an adaptor over `f` that carries the parameter limit
`L`, a call in which the captured count plus the new count exceeds `L` never
returns a new adaptor, and its outcome is that of `f` on the combined list:
rejected when `f` rejects it, and the result of `f` when `f` accepts it.  The
limit guards only `partial_adaptor_join` and `partial_adaptor_pack`. -/
theorem partial_over_limit {α β : Type} (p : partial_adaptor α β) (L : Nat) (ys : List α)
    (hL : p.F.fit_function_param_limit = some L)
    (hover : L < p.captured.length + ys.length) :
    p.call ys = (p.F.call (p.captured ++ ys)).map partial_result.returned := by
  rw [partial_adaptor_call_eq]
  have hnot : ¬ p.captured.length + ys.length < function_param_limit p.F := by
    simp only [function_param_limit, hL]
    omega
  cases p.F.call (p.captured ++ ys) with
  | some r => rfl
  | none => simp [hnot]

/-- Witness of C5 as amended: `limit_c<2>(sum)` holding `1`, called with two
more arguments; `sum` rejects three arguments, so the call is rejected. -/
theorem partial_over_limit_witness :
    (make_partial_adaptor_pack (limit_c 2 sum) ⟨[1]⟩).F.fit_function_param_limit = some 2 ∧
      2 < (make_partial_adaptor_pack (limit_c 2 sum) ⟨[1]⟩).captured.length
        + [(2 : Int), 3].length ∧
      (make_partial_adaptor_pack (limit_c 2 sum) ⟨[1]⟩).call [2, 3]
        = ((make_partial_adaptor_pack (limit_c 2 sum) ⟨[1]⟩).F.call
            ((make_partial_adaptor_pack (limit_c 2 sum) ⟨[1]⟩).captured ++ [2, 3])).map
          partial_result.returned :=
  ⟨rfl, by decide,
    partial_over_limit (make_partial_adaptor_pack (limit_c 2 sum) ⟨[1]⟩) 2 [2, 3] rfl
      (by decide)⟩

/-- C5 fails as stated: `limit_c<1>(sum)` carries the limit 1 and accepts two
arguments.  A fresh `partial` of it called with `(1, 2)` has 0 + 2 > 1
arguments, and the adaptor holding `1` called with `(2)` has 1 + 1 > 1; both
calls invoke the function and return 3. -/
theorem partial_over_limit_counterexample :
    function_param_limit (limit_c 1 sum) = 1 ∧
    (1 < (make_partial_adaptor (function_class.function (limit_c 1 sum))).captured.length
        + [(1 : Int), 2].length ∧
      (make_partial_adaptor (function_class.function (limit_c 1 sum))).call [1, 2]
        = some (partial_result.returned 3)) ∧
    (1 < (make_partial_adaptor_pack (limit_c 1 sum) ⟨[1]⟩).captured.length
        + [(2 : Int)].length ∧
      (make_partial_adaptor_pack (limit_c 1 sum) ⟨[1]⟩).call [2]
        = some (partial_result.returned 3)) :=
  ⟨rfl, ⟨by decide, rfl⟩, ⟨by decide, rfl⟩⟩

/-! ## Theorems: unpack.hpp -/

/-- Reading the indices `k, ..., k + n - 1` of a tuple whose first `k` elements
are `pre` and whose other `n` elements are `suf` gives `suf`. -/
theorem std_get_each_range {α : Type} (suf pre : List α) :
    std_get_each (pre ++ suf) (List.range' pre.length suf.length) = some suf := by
  induction suf generalizing pre with
  | nil => rfl
  | cons x suf ih =>
    have hx : (pre ++ x :: suf)[pre.length]? = some x := by
      rw [List.getElem?_append_right (Nat.le_refl _)]
      simp
    have hrest := ih (pre ++ [x])
    simp only [List.append_assoc, List.singleton_append, List.length_append,
      List.length_singleton] at hrest
    simp only [List.length_cons, List.range'_succ, std_get_each, hx, hrest]

/-- The tuple rule passes the elements of the tuple in index order. -/
theorem unpack_tuple_gens {α β : Type} (f : List α → Option β) (t : List α) :
    unpack_tuple f t (make_tuple_gens t) = f t := by
  have h := std_get_each_range t []
  simp only [List.nil_append, List.length_nil] at h
  simp only [unpack_tuple, make_tuple_gens, List.range_eq_range', h]

/-- For an unpackable sequence `unpack_impl` calls the function with the
elements of the sequence. -/
theorem unpack_impl_elements {α β : Type} (f : List α → Option β) (s : Sequence α)
    (hs : is_unpackable s = true) : unpack_impl f s = f s.elements := by
  cases s with
  | tuple t => simp [unpack_impl, unpack_sequence_apply, unpack_tuple_gens, Sequence.elements]
  | pack p =>
    simp [unpack_impl, unpack_sequence_apply, unpack_pack_base, pack_base.call,
      Sequence.elements]
  | other x => simp [is_unpackable] at hs

/-- The assertion of `unpack_check` holds for every tuple and every pack. -/
theorem unpack_check_of_unpackable {α : Type} (s : Sequence α)
    (hs : is_unpackable s = true) : unpack_check s = true := by
  simp [unpack_check, unpack_impl_elements _ s hs, always]

/-- For an unpackable sequence `unpack_simple` calls the function with the
elements of the sequence. -/
theorem unpack_simple_elements {α β : Type} (f : List α → Option β) (s : Sequence α)
    (hs : is_unpackable s = true) : unpack_simple f s = f s.elements := by
  simp [unpack_simple, unpack_check_of_unpackable s hs, unpack_impl_elements f s hs]

/-- Joining the packs of a list of unpackable sequences and calling the joined
pack with `f` calls `f` with the concatenated elements. -/
theorem unpack_join_concat {α β : Type} (f : List α → Option β) (ss : List (Sequence α))
    (hs : ss.all is_unpackable = true) : unpack_join f ss = f (concat_elements ss) := by
  have hpacks : ∀ l : List (Sequence α), l.all is_unpackable = true →
      ∃ ps, unpack_simple_each l = some ps ∧ (pack_join ps).elems = concat_elements l := by
    intro l
    induction l with
    | nil => intro _; exact ⟨[], rfl, rfl⟩
    | cons s l ih =>
      intro hall
      simp only [List.all_cons, Bool.and_eq_true] at hall
      obtain ⟨ps, hps, hjoin⟩ := ih hall.2
      refine ⟨pack_forward s.elements :: ps, ?_, ?_⟩
      · simp only [unpack_simple_each, unpack_simple_elements _ s hall.1, hps]
      · simp only [pack_join, pack_forward, hjoin, concat_elements]
  obtain ⟨ps, hps, hjoin⟩ := hpacks ss hs
  simp only [unpack_join, hps, pack_base.call, hjoin]

/-- The call of `unpack_adaptor` on a non-empty list of unpackable sequences. -/
theorem unpack_adaptor_call_concat {α β : Type} (F : Callable α β)
    (ss : List (Sequence α)) (hne : ss ≠ []) (hs : ss.all is_unpackable = true) :
    (unpack_adaptor F).call ss = F.call (concat_elements ss) := by
  match ss, hne, hs with
  | [x], _, hs =>
    simp only [List.all_cons, List.all_nil, Bool.and_true] at hs
    simp only [unpack_adaptor, hs, if_true, unpack_simple_elements _ x hs, concat_elements,
      List.append_nil]
  | x :: y :: ts, _, hs =>
    simp only [unpack_adaptor, hs, if_true]
    exact unpack_join_concat F.call (x :: y :: ts) hs

/-- A call of `unpack_adaptor` that is well-formed has a non-empty argument list
of unpackable sequences. -/
theorem unpack_adaptor_call_some {α β : Type} (F : Callable α β) (ss : List (Sequence α))
    (r : β) (hr : (unpack_adaptor F).call ss = some r) :
    ss ≠ [] ∧ ss.all is_unpackable = true := by
  match ss, hr with
  | [], hr => simp [unpack_adaptor] at hr
  | [x], hr =>
    by_cases hx : is_unpackable x = true
    · simp [hx]
    · simp [unpack_adaptor, hx] at hr
  | x :: y :: ts, hr =>
    by_cases hall : (x :: y :: ts).all is_unpackable = true
    · exact ⟨by simp, hall⟩
    · simp only [unpack_adaptor, hall] at hr
      simp at hr

/-- A call of `unpack_adaptor` with an argument that is not unpackable is
rejected. -/
theorem unpack_adaptor_call_none {α β : Type} (F : Callable α β) (ss : List (Sequence α))
    (hs : ¬ ss.all is_unpackable = true) : (unpack_adaptor F).call ss = none := by
  cases hr : (unpack_adaptor F).call ss with
  | none => rfl
  | some r => exact absurd (unpack_adaptor_call_some F ss r hr).2 hs

/-- Inserting empty tuples keeps the concatenated elements, keeps the arguments
unpackable or not, and keeps a non-empty list non-empty. -/
theorem InsertEmpty.preserves {α : Type} {ss ss2 : List (Sequence α)}
    (h : InsertEmpty ss ss2) :
    concat_elements ss2 = concat_elements ss ∧
      (ss2.all is_unpackable = true ↔ ss.all is_unpackable = true) ∧
      (ss ≠ [] → ss2 ≠ []) := by
  induction h with
  | done => exact ⟨rfl, Iff.rfl, fun h => h⟩
  | keep s _ ih =>
    refine ⟨by simp [concat_elements, ih.1], ?_, by simp⟩
    simp only [List.all_cons, Bool.and_eq_true, ih.2.1]
  | insert _ ih =>
    refine ⟨by simp [concat_elements, Sequence.elements, ih.1], ?_, by simp⟩
    simp only [List.all_cons, Bool.and_eq_true, ih.2.1, is_unpackable, true_and]

/-- C6: for every callable `f` and every non-empty list of unpackable sequences
(tuples or packs), `unpack(f)(s1, ..., sN)` is `f` called with the elements of
`s1`, then those of `s2`, ..., then those of `sN`: accepted exactly when `f`
accepts the concatenation, with the same result. -/
theorem unpack_concatenates {α β : Type} (F : Callable α β) (ss : List (Sequence α))
    (hne : ss ≠ []) (hs : ∀ s ∈ ss, is_unpackable s = true) :
    (unpack_adaptor F).call ss = F.call (concat_elements ss) :=
  unpack_adaptor_call_concat F ss hne (List.all_eq_true.mpr hs)

/-- Witness of C6: `unpack(sum)(make_tuple(3), make_tuple(2)) == 5`. -/
theorem unpack_concatenates_witness :
    ([Sequence.tuple [(3 : Int)], Sequence.tuple [2]] ≠ []) ∧
      (∀ s ∈ [Sequence.tuple [(3 : Int)], Sequence.tuple [2]], is_unpackable s = true) ∧
      (unpack_adaptor sum).call [Sequence.tuple [3], Sequence.tuple [2]] = some 5 :=
  ⟨by simp, by simp [is_unpackable],
    (unpack_concatenates sum [Sequence.tuple [3], Sequence.tuple [2]] (by simp)
      (by simp [is_unpackable])).trans rfl⟩

/-- C7: for every callable `f` and every tuple `t = (t0, ..., tn-1)`, the empty
tuple included, `unpack(f)(t)` is `f(t0, ..., tn-1)`, the elements passed in
index order; and `unpack(sum)(make_tuple(3, 2)) == 5`. -/
theorem unpack_single_tuple :
    (∀ (α β : Type) (F : Callable α β) (t : List α),
      (unpack_adaptor F).call [Sequence.tuple t] = F.call t) ∧
    (unpack_adaptor sum).call [Sequence.tuple [3, 2]] = some 5 := by
  have hgen : ∀ (α β : Type) (F : Callable α β) (t : List α),
      (unpack_adaptor F).call [Sequence.tuple t] = F.call t := by
    intro α β F t
    have h := unpack_adaptor_call_concat F [Sequence.tuple t] (by simp) (by simp [is_unpackable])
    simpa [concat_elements, Sequence.elements] using h
  exact ⟨hgen, (hgen Int Int sum [3, 2]).trans rfl⟩

/-- C8: an empty tuple is the identity for `unpack`.  Let `ss2` be the list
`ss` with empty tuples inserted at any positions.  When the sequences of `ss`
are unpackable and `ss2` has at least one argument, `unpack(f)(ss2...)` is `f`
on the elements of `ss`: it is accepted exactly when `f` accepts those
elements, with the result of `f`.  So whenever `f` accepts the elements of a
non-empty `ss` with result `r`, both `unpack(f)(ss...)` and `unpack(f)(ss2...)`
are accepted with the result `r`.  For every non-empty `ss` the two calls
agree, acceptance included; and whenever `unpack(f)(ss...)` is accepted with a
result, `unpack(f)(ss2...)` is accepted with the same result. -/
theorem unpack_insert_empty {α β : Type} (F : Callable α β) (ss ss2 : List (Sequence α))
    (h : InsertEmpty ss ss2) :
    ((∀ s ∈ ss, is_unpackable s = true) → ss2 ≠ [] →
      (unpack_adaptor F).call ss2 = F.call (concat_elements ss)) ∧
    (∀ r : β, (∀ s ∈ ss, is_unpackable s = true) → ss ≠ [] →
      F.call (concat_elements ss) = some r →
        (unpack_adaptor F).call ss = some r ∧ (unpack_adaptor F).call ss2 = some r) ∧
    (ss ≠ [] → (unpack_adaptor F).call ss2 = (unpack_adaptor F).call ss) ∧
    (∀ r : β, (unpack_adaptor F).call ss = some r →
      (unpack_adaptor F).call ss2 = some r) := by
  obtain ⟨hcat, hall, hne⟩ := h.preserves
  have e2 : (∀ s ∈ ss, is_unpackable s = true) → ss2 ≠ [] →
      (unpack_adaptor F).call ss2 = F.call (concat_elements ss) := by
    intro hs hne2
    rw [unpack_adaptor_call_concat F ss2 hne2 (hall.mpr (List.all_eq_true.mpr hs)), hcat]
  have hagree : ss ≠ [] → (unpack_adaptor F).call ss2 = (unpack_adaptor F).call ss := by
    intro hne1
    by_cases hall1 : ss.all is_unpackable = true
    · rw [unpack_adaptor_call_concat F ss2 (hne hne1) (hall.mpr hall1), hcat,
        unpack_adaptor_call_concat F ss hne1 hall1]
    · rw [unpack_adaptor_call_none F ss hall1,
        unpack_adaptor_call_none F ss2 (fun h2 => hall1 (hall.mp h2))]
  refine ⟨e2, ?_, hagree, ?_⟩
  · intro r hs hne1 hr
    have h2 := (e2 hs (hne hne1)).trans hr
    exact ⟨(hagree hne1).symm.trans h2, h2⟩
  · intro r hr
    have hne1 := (unpack_adaptor_call_some F ss r hr).1
    rw [hagree hne1]
    exact hr

/-- Witness of C8: `unpack(sum)((), (1), (), (2))` is accepted and is 3, as
`unpack(sum)((1), (2))` is, the call of test/unpack.cpp:57. -/
theorem unpack_insert_empty_witness :
    InsertEmpty [Sequence.tuple [(1 : Int)], Sequence.tuple [2]]
        [Sequence.tuple [], Sequence.tuple [1], Sequence.tuple [], Sequence.tuple [2]] ∧
      (unpack_adaptor sum).call [Sequence.tuple [1], Sequence.tuple [2]] = some 3 ∧
      (unpack_adaptor sum).call
          [Sequence.tuple [], Sequence.tuple [1], Sequence.tuple [], Sequence.tuple [2]]
        = some 3 :=
  ⟨InsertEmpty.insert (InsertEmpty.keep _ (InsertEmpty.insert
      (InsertEmpty.keep _ InsertEmpty.done))),
    (unpack_insert_empty sum [Sequence.tuple [1], Sequence.tuple [2]]
        [Sequence.tuple [], Sequence.tuple [1], Sequence.tuple [], Sequence.tuple [2]]
        (InsertEmpty.insert (InsertEmpty.keep _ (InsertEmpty.insert
          (InsertEmpty.keep _ InsertEmpty.done))))).2.1 3
      (by simp [is_unpackable]) (by simp) rfl⟩

/-! ## Theorems: flow.hpp -/

/-- Once a stage has rejected its input, no later stage produces a result. -/
theorem foldl_flow_stage_none {α : Type} (Fs : List (Callable α α)) :
    Fs.foldl flow_stage (none : Option α) = none := by
  induction Fs with
  | nil => rfl
  | cons G Fs ih => simpa [List.foldl_cons, flow_stage] using ih

/-- The nested kernels of `flow_adaptor` thread the value through the stages
from left to right. -/
theorem flow_adaptor_call_foldl {α : Type} (F : Callable α α) (Fs : List (Callable α α))
    (xs : List α) : (flow_adaptor F Fs).call xs = Fs.foldl flow_stage (F.call xs) := by
  induction Fs generalizing F xs with
  | nil => rfl
  | cons G Fs ih =>
    simp only [flow_adaptor, flow_kernel, List.foldl_cons]
    cases hF : F.call xs with
    | none => simp only [flow_stage, foldl_flow_stage_none]
    | some r => simp only [flow_stage, ih]

/-- C9: for every chain `f1, f2, ..., fn` and arguments `xs`,
`flow(f1, f2, ..., fn)(xs...)` is `fn(...f2(f1(xs...)))`: `f1` receives all of
`xs`, each later stage receives the single result of the stage before it.  In
particular `flow(f, g)(xs...) == g(f(xs...))`, and
`flow(increment, negate, decrement, decrement)(3) == -6`. -/
theorem flow_threads_left_to_right :
    (∀ (α : Type) (F : Callable α α) (Fs : List (Callable α α)) (xs : List α),
      (flow_adaptor F Fs).call xs = Fs.foldl flow_stage (F.call xs)) ∧
    (∀ (α : Type) (F G : Callable α α) (xs : List α),
      (flow_adaptor F [G]).call xs = (F.call xs).bind (fun r => G.call [r])) ∧
    (flow_adaptor increment [negate, decrement, decrement]).call [3] = some (-6) := by
  refine ⟨fun α F Fs xs => flow_adaptor_call_foldl F Fs xs, ?_, by decide⟩
  intro α F G xs
  simp only [flow_adaptor, flow_kernel]
  cases F.call xs <;> rfl

/-- C10: `flow(f)` is the wrapped function itself, parameter limit included, so
`flow(f)(xs...) == f(xs...)` for every `xs`, accepted or not. -/
theorem flow_single {α : Type} (F : Callable α α) :
    flow_adaptor F [] = F ∧ ∀ xs : List α, (flow_adaptor F []).call xs = F.call xs :=
  ⟨rfl, fun _ => rfl⟩

/-! ## Theorems: combine.hpp -/

/-- When every stored function accepts the argument at its own position, the
expansion of `combine` is the list of the results, position by position. -/
theorem combine_expand_positional {α β : Type} (Gs : List (Callable α β)) (xs : List α)
    (ys : List β) (hx : xs.length = Gs.length) (hy : ys.length = Gs.length)
    (h : ∀ (i : Nat) (hi : i < Gs.length), Gs[i].call [xs[i]] = some ys[i]) :
    combine_expand Gs xs = some ys := by
  induction Gs generalizing xs ys with
  | nil =>
    cases xs with
    | nil =>
      cases ys with
      | nil => rfl
      | cons y ys => simp at hy
    | cons x xs => simp at hx
  | cons G Gs ih =>
    cases xs with
    | nil => simp at hx
    | cons x xs =>
      cases ys with
      | nil => simp at hy
      | cons y ys =>
        simp only [List.length_cons, Nat.add_right_cancel_iff] at hx hy
        have h0 := h 0 (by simp)
        simp only [List.getElem_cons_zero] at h0
        have hrest : ∀ (i : Nat) (hi : i < Gs.length), Gs[i].call [xs[i]] = some ys[i] := by
          intro i hi
          have hs := h (i + 1) (by simp; omega)
          simpa only [List.getElem_cons_succ] using hs
        simp only [combine_expand, h0, ih xs ys hx hy hrest]

/-- C11: for every `n >= 0`, callable `f`, callables `g1, ..., gn` and arguments
`x1, ..., xn`, where `yi` is the result `gi(xi)` at each position `i`:
`combine(f, g1, ..., gn)(x1, ..., xn)` is `f(y1, ..., yn)`; each `gi` is applied
to the argument at its own position. -/
theorem combine_positional {α β γ : Type} (F : Callable β γ) (Gs : List (Callable α β))
    (xs : List α) (ys : List β) (hx : xs.length = Gs.length) (hy : ys.length = Gs.length)
    (h : ∀ (i : Nat) (hi : i < Gs.length), Gs[i].call [xs[i]] = some ys[i]) :
    combine_adaptor F Gs xs = F.call ys := by
  simp only [combine_adaptor, combine_expand_positional Gs xs ys hx hy h]

/-- Witness of C11: `combine(sum, increment, negate)(1, 2)` is
`sum(increment(1), negate(2)) == 0`. -/
theorem combine_positional_witness :
    [(1 : Int), 2].length = [increment, negate].length ∧
      [(2 : Int), -2].length = [increment, negate].length ∧
      combine_adaptor sum [increment, negate] [1, 2] = some 0 :=
  ⟨rfl, rfl,
    (combine_positional sum [increment, negate] [1, 2] [2, -2] rfl rfl
      (by
        intro i hi
        match i, hi with
        | 0, _ => rfl
        | 1, _ => rfl)).trans (by decide)⟩

/-! ## Theorems: fix.hpp -/

/-- The call operator of `factorial_move_t` on one argument. -/
theorem factorial_move_t_call (c : Int) (s : List Int → Option Int) (x : Int) :
    (factorial_move_t c).call s [x] =
      if x = 0 then some c
      else
        match s [x - 1] with
        | none => none
        | some r => some (x * r) :=
  rfl

/-- The factorial through `fix`, with a value `c` in the base case: a call with
`n` returns `n! * c` as soon as the depth bound exceeds `n`. -/
theorem fix_factorial_move_call (c : Int) (n depth : Nat) (h : n < depth) :
    (fix (factorial_move_t c)).call depth [(n : Int)] = some ((n.factorial : Int) * c) := by
  induction n generalizing depth with
  | zero =>
    obtain ⟨d, rfl⟩ : ∃ d, depth = d + 1 := ⟨depth - 1, by omega⟩
    have hstep : (fix (factorial_move_t c)).call (d + 1) [((0 : Nat) : Int)]
        = (factorial_move_t c).call (fun ys => (fix (factorial_move_t c)).call d ys)
            [((0 : Nat) : Int)] := rfl
    rw [hstep, factorial_move_t_call]
    simp
  | succ m ih =>
    obtain ⟨d, rfl⟩ : ∃ d, depth = d + 1 := ⟨depth - 1, by omega⟩
    have hm := ih d (by omega)
    have hne : ((m + 1 : Nat) : Int) ≠ 0 := by omega
    have hpred : ((m + 1 : Nat) : Int) - 1 = (m : Int) := by omega
    have hstep : (fix (factorial_move_t c)).call (d + 1) [((m + 1 : Nat) : Int)]
        = (factorial_move_t c).call (fun ys => (fix (factorial_move_t c)).call d ys)
            [((m + 1 : Nat) : Int)] := rfl
    rw [hstep, factorial_move_t_call, if_neg hne, hpred, hm, Nat.factorial_succ]
    simp only [Option.some.injEq]
    push_cast
    ring

/-- The function object `factorial_t` is `factorial_move_t` holding 1. -/
theorem factorial_t_eq : factorial_t = factorial_move_t 1 := rfl

/-- C12: for every function object `f` and arguments `xs`, `fix(f)(xs...)` is
`f(fix(f), xs...)`: the wrapped function receives, before `xs`, the wrapper
`fix(f)` itself, which it can call again (one level deeper on the call
stack). -/
theorem fix_passes_wrapper {α β : Type} (f : FixFunction α β) (depth : Nat) (xs : List α) :
    (fix f).call (depth + 1) xs = f.call (fun ys => (fix f).call depth ys) xs :=
  rfl

/-- C13: for every natural number `n`, over unbounded integers,
`fix(factorial_t)(n)` returns `n!` as soon as the depth bound exceeds `n`. -/
theorem fix_factorial (n depth : Nat) (h : n < depth) :
    (fix factorial_t).call depth [(n : Int)] = some (n.factorial : Int) := by
  rw [factorial_t_eq, fix_factorial_move_call 1 n depth h, Int.mul_one]

/-- Witness of C13: `fix(factorial_t)(5) == 120`. -/
theorem fix_factorial_witness :
    5 < 6 ∧ (fix factorial_t).call 6 [5] = some 120 :=
  ⟨by decide, fix_factorial 5 6 (by decide)⟩

/-- C14: for the function object that holds a value `c` and computes
`n == 0 ? c : n * self(n-1)`, `fix(f)(n)` returns `n! * c` for every natural
`n` as soon as the depth bound exceeds `n`; the value read at the bottom of the
recursion is the `c` of the wrapped object, and at every depth the body is
called with the wrapper of that same object. -/
theorem fix_factorial_captured (c : Int) (n depth : Nat) (h : n < depth) :
    (fix (factorial_move_t c)).call depth [(n : Int)] = some ((n.factorial : Int) * c) ∧
      ∀ (d : Nat) (xs : List Int),
        (fix (factorial_move_t c)).call (d + 1) xs
          = (factorial_move_t c).call (fun ys => (fix (factorial_move_t c)).call d ys) xs :=
  ⟨fix_factorial_move_call c n depth h, fun _ _ => rfl⟩

/-- Witness of C14: the test of test/fix.cpp:47-52, `c == 1` and `n == 5`. -/
theorem fix_factorial_captured_witness :
    5 < 6 ∧ (fix (factorial_move_t 1)).call 6 [5] = some 120 :=
  ⟨by decide, (fix_factorial_captured 1 5 6 (by decide)).1⟩

/-! ## Theorems: repeat.hpp -/

/-- The expression `repeat(N)(f)(xs...)` goes through `decorate` to
`repeater<N>()(f, xs...)`. -/
theorem repeat_adaptor_eq {α : Type} (N : Nat) (f : Callable α α) (xs : List α) :
    repeat_adaptor N f xs = repeater N f xs :=
  rfl

/-- Further applications of a function to a rejected call stay rejected. -/
theorem iterate_flow_stage_none {α : Type} (f : Callable α α) (N : Nat) :
    (fun acc => flow_stage acc f)^[N] (none : Option α) = none := by
  induction N with
  | zero => rfl
  | succ N ih => rw [Function.iterate_succ_apply]; exact ih

/-- The recursion of `repeater` on one value is the `N`-fold application of the
function, each result feeding the next application. -/
theorem repeater_iterate {α : Type} (N : Nat) (f : Callable α α) (x : α) :
    repeater N f [x] = (fun acc => flow_stage acc f)^[N] (some x) := by
  induction N generalizing x with
  | zero => rfl
  | succ N ih =>
    rw [Function.iterate_succ_apply]
    show (match f.call [x] with
      | none => none
      | some r => repeater N f [r]) = (fun acc => flow_stage acc f)^[N] (f.call [x])
    cases f.call [x] with
    | none => exact (iterate_flow_stage_none f N).symm
    | some r => exact ih r

/-- C15: for every `N >= 0`, callable `f` and value `x`, `repeat(N)(f)(x)` is
`f` applied exactly `N` times to `x`, each result feeding the next application
(and rejected as soon as one application is).  For a function `g` that is
defined on every value it is `g` iterated `N` times on `x`; for `N == 0` it is
`x` unchanged; and `repeat(5)(increment)(1) == 6`. -/
theorem repeat_applies_n_times :
    (∀ (α : Type) (N : Nat) (f : Callable α α) (x : α),
      repeat_adaptor N f [x] = (fun acc => flow_stage acc f)^[N] (some x)) ∧
    (∀ (α : Type) (N : Nat) (f : Callable α α) (g : α → α) (x : α),
      (∀ y : α, f.call [y] = some (g y)) → repeat_adaptor N f [x] = some (g^[N] x)) ∧
    (∀ (α : Type) (f : Callable α α) (x : α), repeat_adaptor 0 f [x] = some x) ∧
    repeat_adaptor 5 increment [1] = some 6 := by
  refine ⟨fun α N f x => repeater_iterate N f x, ?_, fun _ _ _ => rfl, by decide⟩
  intro α N f g x hg
  rw [repeat_adaptor_eq]
  induction N generalizing x with
  | zero => rfl
  | succ N ih =>
    simp only [repeater, hg x, ih (g x), Function.iterate_succ_apply]

/-- C16: for every `N >= 1` (written `N + 1`), callable `f` and value `x`,
`repeat(N + 1)(f)(x)` is `f(repeat(N)(f)(x))`: the last application of `f` is
the outermost one, although the implementation unfolds as
`repeat(N)(f)(f(x))`.  The result is produced: `repeat(N + 1)(f)(x)` is `f`
applied to the `N`-fold application of `f` to `x`, so whenever `repeat(N)(f)(x)`
is some `y` and `f` accepts `y`, it is `f(y)`; for a function `g` that is
defined on every value, `repeat(N)(f)(x)` is `g` iterated `N` times on `x` and
`repeat(N + 1)(f)(x)` is `g` of that; and `repeat(5)(increment)(1) == 6` is
`increment(repeat(4)(increment)(1))`, with `repeat(4)(increment)(1) == 5`. -/
theorem repeat_last_application_outermost :
    (∀ (α : Type) (N : Nat) (f : Callable α α) (x : α),
      repeat_adaptor (N + 1) f [x]
        = flow_stage ((fun acc => flow_stage acc f)^[N] (some x)) f) ∧
    (∀ (α : Type) (N : Nat) (f : Callable α α) (x : α),
      repeat_adaptor (N + 1) f [x] = flow_stage (repeat_adaptor N f [x]) f) ∧
    (∀ (α : Type) (N : Nat) (f : Callable α α) (x y : α),
      repeat_adaptor N f [x] = some y → repeat_adaptor (N + 1) f [x] = f.call [y]) ∧
    (∀ (α : Type) (N : Nat) (f : Callable α α) (x : α),
      repeat_adaptor (N + 1) f [x]
        = (f.call [x]).bind (fun y => repeat_adaptor N f [y])) ∧
    (∀ (α : Type) (N : Nat) (f : Callable α α) (g : α → α) (x : α),
      (∀ y : α, f.call [y] = some (g y)) →
        repeat_adaptor N f [x] = some (g^[N] x) ∧
          repeat_adaptor (N + 1) f [x] = some (g (g^[N] x))) ∧
    (repeat_adaptor 4 increment [1] = some 5 ∧ increment.call [5] = some 6 ∧
      repeat_adaptor 5 increment [1] = some 6) := by
  have houter : ∀ (α : Type) (N : Nat) (f : Callable α α) (x : α),
      repeat_adaptor (N + 1) f [x] = flow_stage (repeat_adaptor N f [x]) f := by
    intro α N f x
    rw [repeat_adaptor_eq, repeat_adaptor_eq, repeater_iterate, repeater_iterate,
      Function.iterate_succ_apply']
  have htotal : ∀ (α : Type) (N : Nat) (f : Callable α α) (g : α → α) (x : α),
      (∀ y : α, f.call [y] = some (g y)) → repeat_adaptor N f [x] = some (g^[N] x) := by
    intro α N f g x hg
    rw [repeat_adaptor_eq]
    induction N generalizing x with
    | zero => rfl
    | succ N ih =>
      simp only [repeater, hg x, ih (g x), Function.iterate_succ_apply]
  refine ⟨?_, houter, ?_, ?_, ?_, by decide⟩
  · intro α N f x
    rw [houter, repeat_adaptor_eq, repeater_iterate]
  · intro α N f x y hy
    rw [houter, hy]
    rfl
  · intro α N f x
    simp only [repeat_adaptor_eq, repeater]
    cases f.call [x] <;> rfl
  · intro α N f g x hg
    have hN := htotal α N f g x hg
    refine ⟨hN, ?_⟩
    rw [houter, hN]
    exact hg _

/-! ## Theorems: repeat_while.hpp -/

/-- The expression `repeat_while(pred)(f)(xs...)` goes through `decorate` to
`repeat_while_decorator`. -/
theorem repeat_while_eq {α : Type} (depth : Nat) (pred : Callable α Bool)
    (f : Callable α α) (xs : List α) :
    repeat_while depth pred f xs = repeat_while_decorator depth pred f xs :=
  rfl

/-- From a value of 6 or more, `while_repeater<true>` with `increment` and
`not_6` reaches `while_repeater<false>` at no depth. -/
theorem while_repeater_from_6 (depth : Nat) (n : Int) (hn : 6 ≤ n) :
    while_repeater increment not_6 depth true [n] = none := by
  induction depth generalizing n with
  | zero => rfl
  | succ d ih =>
    have hne : n + 1 ≠ 6 := by omega
    simp only [while_repeater, increment, compute_predicate, not_6, ne_eq, hne,
      not_false_eq_true, decide_True]
    exact ih (n + 1) (by omega)

/-- C17, the code at two inputs.  At 5 the predicate holds (`5 != 6`), so the
function is to be applied and 6 returned; the code returns 5 at every depth,
because its first test is made on `increment(5)`.  At 6 the predicate is
already false, so 6 is to be returned unchanged; the code has no result at any
depth, because its first test is made on `increment(6)`. -/
theorem repeat_while_first_test_on_next :
    (not_6.call [5] = some true ∧
      ∀ depth : Nat, repeat_while depth not_6 increment [5] = some 5) ∧
    (not_6.call [6] = some false ∧
      ∀ depth : Nat, repeat_while depth not_6 increment [6] = none) := by
  refine ⟨⟨by decide, ?_⟩, ⟨by decide, ?_⟩⟩
  · intro depth
    cases depth <;> rfl
  · intro depth
    have h := while_repeater_from_6 depth 6 (by decide)
    simp only [repeat_while_eq, repeat_while_decorator, increment, compute_predicate, not_6]
    exact h

/-- C18, the code at the start value 5: it returns a value on which the
predicate is still true, and that value is not 6. -/
theorem repeat_while_result_satisfies_pred :
    ∃ r : Int, repeat_while 1 not_6 increment [5] = some r ∧
      not_6.call [r] = some true ∧ r ≠ 6 :=
  ⟨5, rfl, by decide, by decide⟩

/-! ## Theorems: pipable.hpp -/

/-- C19: for every callable `f`, value `x` and argument list `ys` such that `f`
rejects `ys` alone, `size(ys)` is below the parameter limit of `f` and `f`
accepts `(x, ys...)` with result `r`: `pipable(f)(ys...)` is a closure, and
`x | pipable(f)(ys...)` is `r`; the piped value is the first argument of the
underlying call. -/
theorem pipable_pipe_first {α β : Type} (F : Callable α β) (x : α) (ys : List α) (r : β)
    (hrej : F.call ys = none) (hlim : ys.length < function_param_limit F)
    (hacc : F.call (x :: ys) = some r) :
    ∃ c : pipe_closure α β,
      pipable_adaptor F ys = some (pipable_result.closure c) ∧
        operator_pipe x c = some r := by
  refine ⟨make_pipe_closure F (pack_forward ys), ?_, ?_⟩
  · simp [pipable_adaptor, conditional_adaptor, hrej, pipe_pack, hlim]
  · simpa [operator_pipe, pipe_closure.call, pipe_closure.invoke, make_pipe_closure,
      pack_base.call, pack_forward] using hacc

/-- Witness of C19: `1 | pipable(sum)(2)` is `sum(1, 2) == 3`, the example of
pipable.hpp:54. -/
theorem pipable_pipe_first_witness :
    sum.call [2] = none ∧ [(2 : Int)].length < function_param_limit sum ∧
      sum.call (1 :: [2]) = some 3 ∧
      ∃ c : pipe_closure Int Int,
        pipable_adaptor sum [2] = some (pipable_result.closure c) ∧
          operator_pipe 1 c = some 3 :=
  ⟨rfl, by decide, rfl, pipable_pipe_first sum 1 [2] 3 rfl (by decide) rfl⟩

/-- C20: for every callable `f` and argument list `xs` that `f` accepts with
result `r`, `pipable(f)(xs...)` is `r`: a pipable function can still be called
the traditional way. -/
theorem pipable_direct_call {α β : Type} (F : Callable α β) (xs : List α) (r : β)
    (hacc : F.call xs = some r) :
    pipable_adaptor F xs = some (pipable_result.returned r) := by
  simp [pipable_adaptor, conditional_adaptor, hacc]

/-- Witness of C20: `pipable(sum)(1, 2) == 3`, the example of pipable.hpp:55. -/
theorem pipable_direct_call_witness :
    sum.call [1, 2] = some 3 ∧
      pipable_adaptor sum [1, 2] = some (pipable_result.returned 3) :=
  ⟨rfl, pipable_direct_call sum [1, 2] 3 rfl⟩

/-! ## Theorems: partial.hpp, chained calls -/

/-- A chain of calls that starts from an adaptor: while the function rejects
the arguments gathered so far and their count is below the limit, every call
returns a bigger adaptor; the call that completes an accepted argument list
returns the result of the function. -/
theorem partial_chain_from_adaptor {α β : Type} (R : β → List α → Option β)
    (init : List (List α)) (last : List α) (r : β) (p : partial_adaptor α β)
    (hrej : ∀ pre : List (List α), pre ≠ [] → pre <+: init →
      p.F.call (p.captured ++ concat_groups pre) = none ∧
        p.captured.length + (concat_groups pre).length < function_param_limit p.F)
    (hacc : p.F.call (p.captured ++ concat_groups (init ++ [last])) = some r) :
    (init ++ [last]).foldl (partial_chain_step R) (some (partial_result.adaptor p))
      = some (partial_result.returned r) := by
  induction init generalizing p with
  | nil =>
    simp only [List.nil_append, concat_groups, List.append_nil] at hacc
    simp only [List.nil_append, List.foldl_cons, List.foldl_nil, partial_chain_step,
      partial_result.call, partial_adaptor_call_eq, hacc]
  | cons g rest ih =>
    obtain ⟨hg, hglim⟩ := hrej [g] (by simp) (by simp)
    simp only [concat_groups, List.append_nil] at hg hglim
    have hcall : p.call g
        = some (partial_result.adaptor (make_partial_adaptor_pack p.F ⟨p.captured ++ g⟩)) := by
      rw [partial_adaptor_call_eq, hg]
      simp [hglim]
    simp only [List.cons_append, List.foldl_cons, partial_chain_step, partial_result.call,
      hcall]
    apply ih
    · intro pre hpre hprefix
      have h := hrej (g :: pre) (by simp) (by simpa using hprefix)
      simpa only [make_partial_adaptor_pack, partial_adaptor.captured, concat_groups,
        List.append_assoc, List.length_append, Nat.add_assoc] using h
    · simpa only [make_partial_adaptor_pack, partial_adaptor.captured, concat_groups,
        List.append_assoc, List.cons_append] using hacc

/-- The one proper non-empty prefix of the groups `(1)`, `(2)` is `(1)`, which
`sum` rejects and which is below the parameter limit of `sum`. -/
theorem sum_rejects_proper_initial (pre : List (List Int)) (hpre : pre ≠ [])
    (hpre2 : pre <+: [[1], [2]]) (hneq : pre ≠ [[1], [2]]) :
    sum.call (concat_groups pre) = none ∧
      (concat_groups pre).length < function_param_limit sum := by
  have hlen := hpre2.length_le
  match pre, hpre, hpre2, hneq, hlen with
  | [g], _, hpre2, _, _ =>
    have hg : g = [1] := by
      obtain ⟨t, ht⟩ := hpre2
      simp at ht
      exact ht.1
    subst hg
    exact ⟨rfl, by decide⟩
  | [g, h], _, hpre2, hneq, _ =>
    exfalso
    apply hneq
    obtain ⟨t, ht⟩ := hpre2
    simp at ht
    simp [ht.1, ht.2]
  | _ :: _ :: _ :: _, _, _, _, hlen => simp at hlen

/-- C21: chained partial application.  For every callable `f` and argument
groups `g1, ..., gk` (`k >= 1`) such that `f` rejects `g1 ++ ... ++ gi` for
every `1 <= i < k`, every such intermediate total size is below the parameter
limit of `f`, and `f` accepts `g1 ++ ... ++ gk` with result `r`:
`partial(f)(g1...)(g2...)...(gk...)` is `r`, whatever the grouping.  The
function given to `partial` is of any class `t`; `f` is the function the
adaptor derives from (`t.base`: `g` for a `pipable_adaptor` over `g`, `t`
itself otherwise). -/
theorem partial_chained {α β : Type} (R : β → List α → Option β) (t : function_class α β)
    (groups : List (List α)) (r : β) (hne : groups ≠ [])
    (hrej : ∀ pre : List (List α), pre ≠ [] → pre <+: groups → pre ≠ groups →
      t.base.call (concat_groups pre) = none ∧
        (concat_groups pre).length < function_param_limit t.base)
    (hacc : t.base.call (concat_groups groups) = some r) :
    partial_chain R t groups = some (partial_result.returned r) := by
  have hsplit : groups.dropLast ++ [groups.getLast hne] = groups :=
    List.dropLast_append_getLast hne
  rw [partial_chain, ← hsplit]
  apply partial_chain_from_adaptor
  · intro pre hpre hprefix
    have hpre2 : pre <+: groups := by
      rw [← hsplit]
      exact hprefix.trans (List.prefix_append _ _)
    have hneq : pre ≠ groups := by
      intro heq
      have hlen := hprefix.length_le
      rw [heq, List.length_dropLast] at hlen
      have hpos : 0 < groups.length := List.length_pos.mpr hne
      omega
    simpa [make_partial_adaptor, partial_adaptor.captured] using hrej pre hpre hpre2 hneq
  · simpa [make_partial_adaptor, partial_adaptor.captured, hsplit] using hacc

/-- Witness of C21: `partial(sum)(1)(2) == 3`, the example of partial.hpp:55,
and the same chain from `partial(pipable(sum))`, which is an adaptor over
`sum`; its first call `(1)` gives the adaptor over `sum` holding `1`. -/
theorem partial_chained_witness :
    [[(1 : Int)], [2]] ≠ [] ∧ sum.call (concat_groups [[1], [2]]) = some 3 ∧
      partial_chain int_call (function_class.function sum) [[1], [2]]
        = some (partial_result.returned 3) ∧
      partial_chain int_call (function_class.pipable_adaptor (function_class.function sum))
        [[1], [2]] = some (partial_result.returned 3) ∧
      partial_chain int_call (function_class.pipable_adaptor (function_class.function sum))
        [[1]] = some (partial_result.adaptor (make_partial_adaptor_pack sum (pack_decay [1]))) :=
  ⟨by simp, rfl,
    partial_chained int_call (function_class.function sum) [[1], [2]] 3 (by simp)
      sum_rejects_proper_initial rfl,
    partial_chained int_call (function_class.pipable_adaptor (function_class.function sum))
      [[1], [2]] 3 (by simp) sum_rejects_proper_initial rfl,
    rfl⟩

/-! ## Theorems: unpack.hpp, the check and the trait -/

/-- C22, as amended: the assertion of `unpack_check` compares only the type of
what the rule returns for the function `always(private_unpack_type())` with
`private_unpack_type`.  It fails, and `unpack(f)(s)` is rejected, for every
rule that returns a value of another type of its own, whether the rule invokes
the function or not.  It holds for every rule that returns what the function
returns, whatever arguments the rule passes (then `unpack_simple` is the
function on those arguments); it also holds for a rule that returns a
`private_unpack_type` of its own, or a value of the function's result type,
without invoking the function.  The built-in tuple rule passes the check for
every tuple, the empty tuple included. -/
theorem unpack_check_compares_result_type :
    (∀ (S α β : Type) (id : Nat) (f : List α → Option β) (s : S),
      unpack_check_rule (unpack_rule.value (result_type.other id) : unpack_rule S α) s
        = false ∧
      unpack_simple_rule (unpack_rule.value (result_type.other id) : unpack_rule S α) f s
        = none) ∧
    (∀ (S α β : Type) (args : S → List α) (id : Nat) (f : List α → Option β) (s : S),
      unpack_check_rule (unpack_rule.invoke_then_value args (result_type.other id)) s
        = false ∧
      unpack_simple_rule (unpack_rule.invoke_then_value args (result_type.other id)) f s
        = none) ∧
    (∀ (S α β : Type) (args : S → List α) (f : List α → Option β) (s : S),
      unpack_check_rule (unpack_rule.invoke args) s = true ∧
      unpack_simple_rule (unpack_rule.invoke args) f s
        = (f (args s)).map rule_value.function_result) ∧
    (∀ (S α : Type) (args : S → List α) (s : S),
      unpack_check_rule
          (unpack_rule.value result_type.private_unpack_type : unpack_rule S α) s = true ∧
      unpack_check_rule
          (unpack_rule.invoke_then_value args result_type.private_unpack_type) s = true ∧
      unpack_check_rule (unpack_rule.value_of_result_type args) s = true) ∧
    (∀ (S α β : Type) (rule : unpack_rule S α) (f : List α → Option β) (s : S),
      (unpack_check_rule rule s = true →
        unpack_simple_rule rule f s = unpack_impl_rule rule f s) ∧
      (unpack_check_rule rule s = false → unpack_simple_rule rule f s = none)) ∧
    (∀ (α : Type) (t : List α), unpack_check (Sequence.tuple t) = true) ∧
    unpack_check (Sequence.tuple ([] : List Int)) = true := by
  refine ⟨?_, ?_, ?_, ?_, ?_, ?_, ?_⟩
  · intro S α β id f s
    simp [unpack_check_rule, unpack_simple_rule, unpack_impl_rule, rule_value.type]
  · intro S α β args id f s
    simp [unpack_check_rule, unpack_simple_rule, unpack_impl_rule, rule_value.type, always]
  · intro S α β args f s
    simp [unpack_check_rule, unpack_simple_rule, unpack_impl_rule, rule_value.type, always]
  · intro S α args s
    simp [unpack_check_rule, unpack_impl_rule, rule_value.type, always]
  · intro S α β rule f s
    constructor
    · intro h
      simp [unpack_simple_rule, h]
    · intro h
      simp [unpack_simple_rule, h]
  · intro α t
    exact unpack_check_of_unpackable (Sequence.tuple t) rfl
  · exact unpack_check_of_unpackable (Sequence.tuple []) rfl

/-- C22 fails as stated, in both of its clauses.  A rule that returns without
invoking the function passes the check when what it returns is of type
`private_unpack_type` for the probe: the rule `return private_unpack_type()`
and the rule `return decltype(f(s...))()` invoke nothing, the assertion holds,
and `unpack(variadic_sum)(s)` is accepted.  A rule that invokes the function
without the elements of the sequence passes as well: for the sequence `(1, 2)`
and the rule that calls `f()`, `unpack(variadic_sum)(s)` is
`variadic_sum() == 0` instead of being rejected. -/
theorem unpack_check_counterexample :
    (unpack_rule.invoked_with
        (unpack_rule.value result_type.private_unpack_type : unpack_rule (List Int) Int)
        [1, 2] = none ∧
      unpack_check_rule
        (unpack_rule.value result_type.private_unpack_type : unpack_rule (List Int) Int)
        [1, 2] = true ∧
      unpack_simple_rule
        (unpack_rule.value result_type.private_unpack_type : unpack_rule (List Int) Int)
        variadic_sum.call [1, 2]
        = some (rule_value.own_value result_type.private_unpack_type)) ∧
    (unpack_rule.invoked_with
        (unpack_rule.value_of_result_type (fun s => s) : unpack_rule (List Int) Int)
        [1, 2] = none ∧
      unpack_check_rule
        (unpack_rule.value_of_result_type (fun s => s) : unpack_rule (List Int) Int)
        [1, 2] = true ∧
      unpack_simple_rule
        (unpack_rule.value_of_result_type (fun s => s) : unpack_rule (List Int) Int)
        variadic_sum.call [1, 2] = some rule_value.result_type_value) ∧
    (unpack_rule.invoked_with
        (unpack_rule.invoke (fun _ => []) : unpack_rule (List Int) Int) [1, 2] = some [] ∧
      unpack_check_rule
        (unpack_rule.invoke (fun _ => []) : unpack_rule (List Int) Int) [1, 2] = true ∧
      unpack_simple_rule
        (unpack_rule.invoke (fun _ => []) : unpack_rule (List Int) Int)
        variadic_sum.call [1, 2] = some (rule_value.function_result 0) ∧
      variadic_sum.call [1, 2] = some 3) :=
  ⟨⟨rfl, rfl, rfl⟩, ⟨rfl, rfl, rfl⟩, ⟨rfl, rfl, rfl, rfl⟩⟩

/-- The cv-qualifiers and references of C23 do not hide a tuple or a pack. -/
theorem is_unpackable_type_tuple_pack (registered : Nat → Bool) (Ts : List CppType) :
    is_unpackable_type registered (CppType.tuple Ts) = true ∧
    is_unpackable_type registered (CppType.pack_base Ts) = true ∧
    is_unpackable_type registered (CppType.lvalue_ref (CppType.tuple Ts)) = true ∧
    is_unpackable_type registered (CppType.rvalue_ref (CppType.tuple Ts)) = true ∧
    is_unpackable_type registered
      (CppType.lvalue_ref (CppType.const (CppType.tuple Ts))) = true ∧
    is_unpackable_type registered (CppType.lvalue_ref (CppType.pack_base Ts)) = true ∧
    is_unpackable_type registered (CppType.rvalue_ref (CppType.pack_base Ts)) = true ∧
    is_unpackable_type registered
      (CppType.lvalue_ref (CppType.const (CppType.pack_base Ts))) = true :=
  ⟨rfl, rfl, rfl, rfl, rfl, rfl, rfl, rfl⟩

/-- C23: `is_unpackable<T>` is a boolean that is true exactly when an expansion
rule is registered for `T` with reference and cv-qualifiers removed; it is true
for every tuple and every pack and for references to them, false for `int` and
for `void`; and `unpack(f)` accepts an argument list only if every argument is
unpackable. -/
theorem is_unpackable_iff_rule :
    (∀ (registered : Nat → Bool) (T : CppType),
      is_unpackable_type registered T
        = has_expansion_rule registered (remove_cv (remove_reference T))) ∧
    (∀ (registered : Nat → Bool) (Ts : List CppType),
      is_unpackable_type registered (CppType.tuple Ts) = true ∧
      is_unpackable_type registered (CppType.pack_base Ts) = true ∧
      is_unpackable_type registered (CppType.lvalue_ref (CppType.tuple Ts)) = true ∧
      is_unpackable_type registered (CppType.rvalue_ref (CppType.tuple Ts)) = true ∧
      is_unpackable_type registered
        (CppType.lvalue_ref (CppType.const (CppType.tuple Ts))) = true ∧
      is_unpackable_type registered (CppType.lvalue_ref (CppType.pack_base Ts)) = true ∧
      is_unpackable_type registered (CppType.rvalue_ref (CppType.pack_base Ts)) = true ∧
      is_unpackable_type registered
        (CppType.lvalue_ref (CppType.const (CppType.pack_base Ts))) = true) ∧
    (∀ registered : Nat → Bool,
      is_unpackable_type registered CppType.int = false ∧
      is_unpackable_type registered CppType.void = false) ∧
    (∀ (α β : Type) (F : Callable α β) (ss : List (Sequence α)) (r : β),
      (unpack_adaptor F).call ss = some r → ∀ s ∈ ss, is_unpackable s = true) := by
  refine ⟨?_, is_unpackable_type_tuple_pack, fun _ => ⟨rfl, rfl⟩, ?_⟩
  · intro registered T
    have hrule : ∀ S : CppType,
        is_unpackable_impl registered S = has_expansion_rule registered S := by
      intro S
      cases S <;>
        simp [is_unpackable_impl, unpack_sequence_not_unpackable, has_expansion_rule]
    exact hrule _
  · intro α β F ss r hr
    exact List.all_eq_true.mp (unpack_adaptor_call_some F ss r hr).2

/-! ## Theorems: flow.hpp, acceptance -/

/-- The call of a flow adaptor has a result exactly when the chain accepts the
arguments stage by stage. -/
theorem flow_adaptor_isSome_iff {α : Type} (F : Callable α α) (Fs : List (Callable α α))
    (xs : List α) :
    (∃ r, (flow_adaptor F Fs).call xs = some r) ↔ flow_accepts F Fs xs := by
  induction Fs generalizing F xs with
  | nil => exact Iff.rfl
  | cons G Fs ih =>
    simp only [flow_adaptor, flow_kernel, flow_accepts]
    cases hF : F.call xs with
    | none => simp
    | some y =>
      simp only [Option.some.injEq, exists_eq_left']
      exact ih G [y]

/-- C24: `flow(f1, ..., fn)` accepts an argument list `xs` exactly when `f1`
accepts `xs` and every later stage accepts the result of the stage before it.
When `f1` rejects `xs`, or when some stage rejects the value that the stages
before it produce, the whole call is rejected: there is no partial result and
the failing stage is not skipped. -/
theorem flow_accepts_iff_every_stage :
    (∀ (α : Type) (F : Callable α α) (Fs : List (Callable α α)) (xs : List α),
      (∃ r, (flow_adaptor F Fs).call xs = some r) ↔ flow_accepts F Fs xs) ∧
    (∀ (α : Type) (F : Callable α α) (Fs : List (Callable α α)) (xs : List α),
      F.call xs = none → (flow_adaptor F Fs).call xs = none) ∧
    (∀ (α : Type) (F G : Callable α α) (pre post : List (Callable α α)) (xs : List α)
      (y : α), (flow_adaptor F pre).call xs = some y → G.call [y] = none →
      (flow_adaptor F (pre ++ G :: post)).call xs = none) := by
  refine ⟨fun α F Fs xs => flow_adaptor_isSome_iff F Fs xs, ?_, ?_⟩
  · intro α F Fs xs hF
    rw [flow_adaptor_call_foldl, hF, foldl_flow_stage_none]
  · intro α F G pre post xs y hpre hG
    rw [flow_adaptor_call_foldl] at hpre
    rw [flow_adaptor_call_foldl, List.foldl_append, List.foldl_cons, hpre]
    simp only [flow_stage, hG, foldl_flow_stage_none]

/-! ## Theorems: combine.hpp, arity -/

/-- The expansion of `combine` over packs of different lengths is ill-formed. -/
theorem combine_expand_length {α β : Type} (Gs : List (Callable α β)) (xs : List α)
    (h : xs.length ≠ Gs.length) : combine_expand Gs xs = none := by
  induction Gs generalizing xs with
  | nil =>
    cases xs with
    | nil => simp at h
    | cons x xs => rfl
  | cons G Gs ih =>
    cases xs with
    | nil => rfl
    | cons x xs =>
      have hrest : xs.length ≠ Gs.length := by
        intro heq
        apply h
        simp [heq]
      simp only [combine_expand, ih xs hrest]
      cases G.call [x] <;> rfl

/-- C25: `combine(f, g1, ..., gn)` called with `m` arguments, `m != n`, is
rejected, with fewer and with more arguments than there are `g`s; no result of
`f` is produced. -/
theorem combine_arity_mismatch {α β γ : Type} (F : Callable β γ)
    (Gs : List (Callable α β)) (xs : List α) (h : xs.length ≠ Gs.length) :
    combine_adaptor F Gs xs = none := by
  simp only [combine_adaptor, combine_expand_length Gs xs h]

/-- Witness of C25: `combine(sum, increment, negate)` with one argument and with
three. -/
theorem combine_arity_mismatch_witness :
    ([(1 : Int)].length ≠ [increment, negate].length ∧
      combine_adaptor sum [increment, negate] [1] = none) ∧
    ([(1 : Int), 2, 3].length ≠ [increment, negate].length ∧
      combine_adaptor sum [increment, negate] [1, 2, 3] = none) :=
  ⟨⟨by decide, combine_arity_mismatch sum [increment, negate] [1] (by decide)⟩,
    ⟨by decide, combine_arity_mismatch sum [increment, negate] [1, 2, 3] (by decide)⟩⟩

/-! ## Theorems: match.hpp -/

/-- C26: for `match(f1, f2)` where `f1` accepts exactly the values of type `t1`
and `f2` exactly the values of type `t2`, `t1 != t2`: a call with a value of
type `t1` has the result of `f1` (only `f1` is viable, `f2` is not called), a
call with a value of type `t2` has the result of `f2`, and a call with a value
of any other type is rejected; this for every overload ranking `best`. -/
theorem match_selects_by_type {α β τ : Type}
    (best : List (Callable α β) → List α → Option (Callable α β))
    (f1 f2 : Callable α β) (type : α → τ) (t1 t2 : τ) (hne : t1 ≠ t2)
    (h1 : ∀ xs : List α, (f1.call xs).isSome = true ↔ ∃ x, xs = [x] ∧ type x = t1)
    (h2 : ∀ xs : List α, (f2.call xs).isSome = true ↔ ∃ x, xs = [x] ∧ type x = t2) :
    (∀ x : α, type x = t1 →
      match_adaptor best [f1, f2] [x] = f1.call [x] ∧ f2.call [x] = none) ∧
    (∀ x : α, type x = t2 →
      match_adaptor best [f1, f2] [x] = f2.call [x] ∧ f1.call [x] = none) ∧
    (∀ x : α, type x ≠ t1 → type x ≠ t2 → match_adaptor best [f1, f2] [x] = none) := by
  have hv1 : ∀ x : α, (f1.call [x]).isSome = true ↔ type x = t1 := by
    intro x
    rw [h1]
    simp
  have hv2 : ∀ x : α, (f2.call [x]).isSome = true ↔ type x = t2 := by
    intro x
    rw [h2]
    simp
  refine ⟨?_, ?_, ?_⟩
  · intro x hx
    have a1 : (f1.call [x]).isSome = true := (hv1 x).mpr hx
    have a2 : ¬ (f2.call [x]).isSome = true := fun h => hne (hx.symm.trans ((hv2 x).mp h))
    refine ⟨?_, by simpa using a2⟩
    simp [match_adaptor, viable_candidates, List.filter, a1, a2]
  · intro x hx
    have a2 : (f2.call [x]).isSome = true := (hv2 x).mpr hx
    have a1 : ¬ (f1.call [x]).isSome = true :=
      fun h => hne (((hv1 x).mp h).symm.trans hx)
    refine ⟨?_, by simpa using a1⟩
    simp [match_adaptor, viable_candidates, List.filter, a1, a2]
  · intro x hx1 hx2
    have a1 : ¬ (f1.call [x]).isSome = true := fun h => hx1 ((hv1 x).mp h)
    have a2 : ¬ (f2.call [x]).isSome = true := fun h => hx2 ((hv2 x).mp h)
    simp [match_adaptor, viable_candidates, List.filter, a1, a2]

/-- Witness of C26: `match(int_class, foo_class)` of match.hpp:58-61, called
with `1`, with `foo()` and with a value of another type. -/
theorem match_selects_by_type_witness :
    match_type.int ≠ match_type.foo ∧
      match_adaptor (fun _ _ => none) [int_class, foo_class] [match_value.int 1]
        = some (match_value.int 1) ∧
      match_adaptor (fun _ _ => none) [int_class, foo_class] [match_value.foo]
        = some match_value.foo ∧
      match_adaptor (fun _ _ => none) [int_class, foo_class] [match_value.bar] = none := by
  have hne : match_type.int ≠ match_type.foo := by decide
  have h1 : ∀ xs : List match_value, (int_class.call xs).isSome = true ↔
      ∃ x, xs = [x] ∧ match_value.type x = match_type.int := by
    intro xs
    match xs with
    | [] => simp [int_class]
    | [match_value.int n] => simp [int_class, match_value.type]
    | [match_value.foo] => simp [int_class, match_value.type]
    | [match_value.bar] => simp [int_class, match_value.type]
    | _ :: _ :: _ => simp [int_class]
  have h2 : ∀ xs : List match_value, (foo_class.call xs).isSome = true ↔
      ∃ x, xs = [x] ∧ match_value.type x = match_type.foo := by
    intro xs
    match xs with
    | [] => simp [foo_class]
    | [match_value.int n] => simp [foo_class, match_value.type]
    | [match_value.foo] => simp [foo_class, match_value.type]
    | [match_value.bar] => simp [foo_class, match_value.type]
    | _ :: _ :: _ => simp [foo_class]
  have h := match_selects_by_type (fun _ _ => none) int_class foo_class match_value.type
    match_type.int match_type.foo hne h1 h2
  exact ⟨hne, (h.1 (match_value.int 1) rfl).1.trans rfl,
    (h.2.1 match_value.foo rfl).1.trans rfl,
    h.2.2 match_value.bar (by decide) (by decide)⟩

/-! ## Theorems: reverse_compress.hpp -/

/-- The recursion of `v_reverse_fold` is the right fold of the arguments from
the state, the function taking the state first and the argument second. -/
theorem v_reverse_fold_foldr {α : Type} (f : Callable α α) (state : α) (xs : List α) :
    v_reverse_fold f state xs
      = xs.foldr (fun x acc => acc.bind (fun st => f.call [st, x])) (some state) := by
  induction xs with
  | nil => rfl
  | cons x xs ih =>
    simp only [v_reverse_fold, List.foldr_cons, ih]
    cases xs.foldr (fun x acc => acc.bind (fun st => f.call [st, x])) (some state) <;> rfl

/-- C27, as amended: without an initial state, `reverse_compress(f)(x) == x`,
and for every `x`, `y` and argument list `xs`,
`reverse_compress(f)(x, y, xs...) == f(reverse_compress(f)(x, xs...), y)`: the
first argument stays the state, and the function is applied to the other
arguments from the right. -/
theorem reverse_compress_first_is_state {α : Type} (f : Callable α α) (x y : α)
    (xs : List α) :
    reverse_compress_adaptor f none [x] = some x ∧
      reverse_compress_adaptor f none (x :: y :: xs)
        = (reverse_compress_adaptor f none (x :: xs)).bind (fun st => f.call [st, y]) := by
  refine ⟨rfl, ?_⟩
  simp only [reverse_compress_adaptor, v_reverse_fold]
  cases v_reverse_fold f x xs <;> rfl

/-- C27 fails as stated, for a function that is not commutative:
`reverse_compress(minus)(5, 3)` is `5 - 3 == 2`, whereas
`minus(reverse_compress(minus)(3), 5)` is `3 - 5 == -2`. -/
theorem reverse_compress_counterexample :
    reverse_compress_adaptor minus_f none [5, 3] = some 2 ∧
      (reverse_compress_adaptor minus_f none [3]).bind (fun st => minus_f.call [st, 5])
        = some (-2) :=
  ⟨by decide, by decide⟩

/-- C28: with an initial state `z`, `reverse_compress(f, z)() == z`, and
`reverse_compress(f, z)(x, xs...) == f(reverse_compress(f, z)(xs...), x)`; it
is the right fold of the arguments from `z`, the function taking the state
first and the argument second, so that
`reverse_compress(f, z)(a, b, c) == f(f(f(z, c), b), a)`. -/
theorem reverse_compress_with_state {α : Type} (f : Callable α α) (z : α) :
    reverse_compress_adaptor f (some z) [] = some z ∧
    (∀ (x : α) (xs : List α),
      reverse_compress_adaptor f (some z) (x :: xs)
        = (reverse_compress_adaptor f (some z) xs).bind (fun st => f.call [st, x])) ∧
    (∀ xs : List α,
      reverse_compress_adaptor f (some z) xs
        = xs.foldr (fun x acc => acc.bind (fun st => f.call [st, x])) (some z)) ∧
    (∀ a b c : α,
      reverse_compress_adaptor f (some z) [a, b, c]
        = ((f.call [z, c]).bind (fun s1 => f.call [s1, b])).bind
            (fun s2 => f.call [s2, a])) := by
  refine ⟨rfl, ?_, fun xs => v_reverse_fold_foldr f z xs, ?_⟩
  · intro x xs
    simp only [reverse_compress_adaptor, v_reverse_fold]
    cases v_reverse_fold f z xs <;> rfl
  · intro a b c
    simp only [reverse_compress_adaptor, v_reverse_fold]
    cases f.call [z, c] with
    | none => rfl
    | some s1 =>
      show (match f.call [s1, b] with
        | none => none
        | some acc => f.call [acc, a])
        = (f.call [s1, b]).bind (fun s2 => f.call [s2, a])
      cases f.call [s1, b] <;> rfl

/-- C29: when no initial state is given the first argument is the initial
state: `reverse_compress(f)(x, xs...) == reverse_compress(f, x)(xs...)` for
every binary function `f`; and `reverse_compress(max_f)(2, 3, 4, 5) == 5`. -/
theorem reverse_compress_first_argument_state :
    (∀ (α : Type) (f : Callable α α) (x : α) (xs : List α),
      reverse_compress_adaptor f none (x :: xs) = reverse_compress_adaptor f (some x) xs) ∧
    reverse_compress_adaptor max_f none [2, 3, 4, 5] = some 5 :=
  ⟨fun _ _ _ _ => rfl, by decide⟩

/-! ## Theorems: fix.hpp, the first argument -/

/-- C30, as amended: for every function object `f` and arguments `xs`,
`fix(f)(xs...)` is `f(fix(f), xs...)`: the first argument that the wrapped
function receives is the adaptor itself, which is `fix` of its wrapped
function, not the wrapped function. -/
theorem fix_first_argument_is_adaptor {α β : Type} (d : fix_adaptor α β) (depth : Nat)
    (xs : List α) :
    d.call (depth + 1) xs = d.base_function.call (d.call depth) xs ∧
      fix d.base_function = d :=
  ⟨rfl, rfl⟩

/-- C30 fails as stated: `fix(factorial_t)(5)` is 120, whereas
`factorial_t(factorial_t, 5)` has no result, because the recursive call
`s(x-1)` is then a call of `factorial_t` with one integer. -/
theorem fix_self_counterexample :
    (fix factorial_t).call 6 [5] = some 120 ∧
      factorial_t.call factorial_t_plain [5] = none :=
  ⟨by decide, by decide⟩

/-! ## Theorems: apply.hpp -/

/-- C31: for every callable `f` and argument list `xs`, `apply(f, xs...)` is
`f(xs...)`, accepted with the same result when `f` accepts `xs` and rejected
when it does not; and `apply(sum_f(), 1, 2) == 3`. -/
theorem apply_calls_function :
    (∀ (α β : Type) (deref : α → Option α) (F : Callable α β) (xs : List α),
      apply_f deref (apply_function.object F) xs = F.call xs) ∧
    apply_f (fun _ => none) (apply_function.object sum) [1, 2] = some 3 :=
  ⟨fun _ _ _ _ _ => rfl, by decide⟩

/-! ## Theorems: infix.hpp -/

/-- C32: for every binary callable `f` and values `x`, `y`, the expression
`x <infix(f)> y`, which is `(x < infix(f)) > y`, is `f(x, y)`: the left operand
is the first argument and the right operand the second; and
`(1 <sum> 2) == 3`. -/
theorem infix_operands_in_order :
    (∀ (α β : Type) (f : Callable α β) (x y : α),
      (operator_lt x (make_infix_adaptor f)).operator_gt y = f.call [x, y]) ∧
    (operator_lt 1 (make_infix_adaptor sum)).operator_gt 2 = some 3 :=
  ⟨fun _ _ _ _ _ => rfl, by decide⟩

/-! ## Theorems: decorate.hpp -/

/-- C33: for every decorator `f`, datum `x`, callable `g` and arguments `xs`,
`decorate(f)(x)(g)(xs...)` is `f(x, g, xs...)`: the datum first, the decorated
function second, the call arguments after them in order. -/
theorem decorate_argument_order {T F α β : Type} (f : T → F → List α → Option β) (x : T)
    (g : F) (xs : List α) :
    ((decorate_adaptor f x).call g).call xs = f x g xs :=
  rfl

/-! ## Theorems: partial.hpp, reuse -/

/-- A step on an adaptor object returns what the call operator of the adaptor
returns: the result of the function, or the new adaptor. -/
theorem partial_object_step_value {φ α β : Type} (o : function_object φ α β)
    (p : partial_object φ α) (ys : List α) :
    ((p.step o ys).2).map (partial_step_result.value o) = (p.adaptor o).call ys := by
  obtain ⟨F, Pack⟩ := p
  cases Pack with
  | none =>
    cases hc : o.call F ys with
    | some rs =>
      have hc2 : (o.callable F).call ys = some rs.1 := by
        simp [function_object.callable, hc]
      simp [partial_object.step, partial_object.adaptor, partial_adaptor.call,
        conditional_adaptor, hc, hc2, partial_step_result.value]
    | none =>
      have hc2 : (o.callable F).call ys = none := by
        simp [function_object.callable, hc]
      by_cases hlim : ys.length < function_param_limit (o.callable F)
      · simp [partial_object.step, partial_object.adaptor, partial_adaptor.call,
          conditional_adaptor, hc, hc2, partial_step_result.value,
          partial_adaptor_pack, make_partial_adaptor_pack, hlim]
      · simp [partial_object.step, partial_object.adaptor, partial_adaptor.call,
          conditional_adaptor, hc, hc2, partial_step_result.value,
          partial_adaptor_pack, make_partial_adaptor_pack, hlim]
  | some pk =>
    cases hc : o.call F (pk.elems ++ ys) with
    | some rs =>
      have hc2 : (o.callable F).call (pk.elems ++ ys) = some rs.1 := by
        simp [function_object.callable, hc]
      simp [partial_object.step, partial_object.adaptor, partial_adaptor.call,
        conditional_adaptor, hc, hc2, partial_step_result.value,
        partial_adaptor_invoke, pack_join, pack_forward, pack_base.call]
    | none =>
      have hc2 : (o.callable F).call (pk.elems ++ ys) = none := by
        simp [function_object.callable, hc]
      by_cases hlim : ys.length + pk.fit_function_param_limit
          < function_param_limit (o.callable F)
      · simp [partial_object.step, partial_object.adaptor, partial_adaptor.call,
          conditional_adaptor, hc, hc2, partial_step_result.value,
          partial_adaptor_invoke, pack_join, pack_forward, pack_base.call,
          partial_adaptor_join, make_partial_adaptor_pack, hlim]
      · simp [partial_object.step, partial_object.adaptor, partial_adaptor.call,
          conditional_adaptor, hc, hc2, partial_step_result.value,
          partial_adaptor_invoke, pack_join, pack_forward, pack_base.call,
          partial_adaptor_join, make_partial_adaptor_pack, hlim]

/-- A call of an adaptor object never changes its pack, whatever the function
object does and whichever way the call goes. -/
theorem partial_object_step_pack {φ α β : Type} (o : function_object φ α β)
    (p : partial_object φ α) (ys : List α) : (p.step o ys).1.Pack = p.Pack := by
  obtain ⟨F, Pack⟩ := p
  cases Pack with
  | none =>
    simp only [partial_object.step]
    cases o.call F ys with
    | some rs => rfl
    | none => cases partial_adaptor_pack (o.callable F) ys <;> rfl
  | some pk =>
    simp only [partial_object.step]
    cases (pack_join [pk, pack_forward ys]).call (o.call F) with
    | some rs => rfl
    | none => cases partial_adaptor_join (o.callable F) pk ys <;> rfl

/-- A call that the function rejects below its parameter limit, on any adaptor
object: the new adaptor holds the function as it was and the old captured
arguments followed by the new ones, and the adaptor called is left with a
moved-from function. -/
theorem partial_object_step_accumulate {φ α β : Type} (o : function_object φ α β)
    (p : partial_object φ α) (ys : List α)
    (hrej : o.call p.F (p.captured ++ ys) = none)
    (hlim : p.captured.length + ys.length < function_param_limit (o.callable p.F)) :
    p.step o ys = ({ F := o.moved_from p.F, Pack := p.Pack },
      some (partial_step_result.adaptor
        { F := p.F, Pack := some (pack_forward (p.captured ++ ys)) })) := by
  obtain ⟨F, Pack⟩ := p
  cases Pack with
  | none =>
    simp only [partial_object.captured, List.nil_append, List.length_nil,
      Nat.zero_add] at hrej hlim
    simp only [partial_object.step, hrej, partial_adaptor_pack, hlim, if_true,
      make_partial_adaptor_pack, pack_decay, pack_forward, partial_object.captured,
      List.nil_append]
  | some pk =>
    simp only [partial_object.captured] at hrej hlim
    have hlim2 : ys.length + pk.fit_function_param_limit
        < function_param_limit (o.callable F) := by
      simp only [pack_base.fit_function_param_limit]
      omega
    simp only [partial_object.step, pack_join, pack_forward, pack_base.call,
      List.append_nil, hrej, partial_adaptor_join, hlim2, if_true,
      make_partial_adaptor_pack, pack_decay, partial_object.captured]

/-- C35: `limit` only annotates a callable with its maximum parameter count.
The parameter limit of `limit_c<N>(f)` and of `limit(N)(f)` is `N`; that of a
callable without the annotation is `SIZE_MAX`, the largest value of a 64-bit
`std::size_t`; and `limit_c<N>(f)(xs...)` and `limit(N)(f)(xs...)` are
`f(xs...)` for every `xs`. -/
theorem limit_annotates_only :
    (∀ (α β : Type) (N : Nat) (f : Callable α β),
      function_param_limit (limit_c N f) = N ∧ function_param_limit (limit_f N f) = N) ∧
    (∀ (α β : Type) (f : Callable α β), f.fit_function_param_limit = none →
      function_param_limit f = SIZE_MAX) ∧
    (SIZE_MAX + 1 = 2 ^ 64 ∧ ∀ n : Nat, n < 2 ^ 64 → n ≤ SIZE_MAX) ∧
    (∀ (α β : Type) (N : Nat) (f : Callable α β) (xs : List α),
      (limit_c N f).call xs = f.call xs ∧ (limit_f N f).call xs = f.call xs) := by
  refine ⟨fun _ _ _ _ => ⟨rfl, rfl⟩, ?_, ⟨by decide, ?_⟩, fun _ _ _ _ _ => ⟨rfl, rfl⟩⟩
  · intro α β f hf
    simp only [function_param_limit, hf]
  · intro n hn
    have h : SIZE_MAX + 1 = 2 ^ 64 := by decide
    omega

/-! ## Theorems: reveal.hpp -/

/-- Every placeholder operator of `traverse_failure` is disabled on an argument
list that the function accepts. -/
theorem traverse_failure_not_viable {α β : Type} (F : Callable α β)
    (Failures : List (List α → Option β)) (xs : List α) (r : β)
    (hacc : F.call xs = some r) :
    viable_candidates (traverse_failure F Failures) xs = [] := by
  induction Failures with
  | nil => rfl
  | cons Failure rest ih =>
    simp only [traverse_failure, List.map_cons, viable_candidates] at ih ⊢
    rw [List.filter_cons_of_neg]
    · exact ih
    · simp [reveal_failure, hacc]

/-- C36: for every callable `f` and argument list `xs` that `f` accepts with
result `r`, `reveal(f)(xs...)` is `r`, whatever the failures of `f` and the
overload ranking are: the operators that `reveal` adds are enabled only for
argument lists that `f` rejects. -/
theorem reveal_accepted_call {α β : Type}
    (best : List (Callable α β) → List α → Option (Callable α β))
    (Failures : List (List α → Option β)) (F : Callable α β) (xs : List α) (r : β)
    (hacc : F.call xs = some r) :
    (reveal_adaptor best Failures F).call xs = some r ∧
      ∀ G ∈ traverse_failure F Failures, G.call xs = none := by
  constructor
  · have hv : viable_candidates (traverse_failure F Failures ++ [F]) xs = [F] := by
      have h := traverse_failure_not_viable F Failures xs r hacc
      simp only [viable_candidates] at h
      simp [viable_candidates, List.filter_append, h, List.filter, hacc]
    simp only [reveal_adaptor, match_adaptor, hv, hacc]
  · intro G hG
    simp only [traverse_failure, List.mem_map] at hG
    obtain ⟨Failure, _, rfl⟩ := hG
    simp [reveal_failure, hacc]

/-- Witness of C36: the tests of test/reveal.cpp:26-32 and test/fix.cpp:35;
`reveal` over the three-way conditional returns 1, 2, 3 for `t1`, `t2`, `t3`,
and `reveal(factorial)(5) == 120`. -/
theorem reveal_accepted_call_witness :
    (reveal_adaptor (fun _ _ => none) [get_failure reveal_conditional]
        reveal_conditional).call [reveal_value.t1] = some (reveal_value.int 1) ∧
    (reveal_adaptor (fun _ _ => none) [get_failure reveal_conditional]
        reveal_conditional).call [reveal_value.t2] = some (reveal_value.int 2) ∧
    (reveal_adaptor (fun _ _ => none) [get_failure reveal_conditional]
        reveal_conditional).call [reveal_value.t3] = some (reveal_value.int 3) ∧
    (reveal_adaptor (fun _ _ => none) [get_failure (factorial 6)] (factorial 6)).call [5]
      = some 120 :=
  ⟨(reveal_accepted_call _ _ reveal_conditional [reveal_value.t1] _ rfl).1,
    (reveal_accepted_call _ _ reveal_conditional [reveal_value.t2] _ rfl).1,
    (reveal_accepted_call _ _ reveal_conditional [reveal_value.t3] _ rfl).1,
    (reveal_accepted_call _ _ (factorial 6) [5] 120 (by decide)).1⟩

/-! ## Theorems: protect.hpp -/

/-- C37: for every callable `f` and argument list `xs`, `protect(f)(xs...)` is
`f(xs...)`; wrapping a function in `protect` changes neither the result of a
call nor the parameter limit. -/
theorem protect_keeps_call {α β : Type} (F : Callable α β) :
    (∀ xs : List α, (protect_adaptor F).call xs = F.call xs) ∧ protect_adaptor F = F :=
  ⟨fun _ => rfl, rfl⟩

/-! ## Theorems: flow.hpp, associativity -/

/-- C39: `flow` is associative: for all callables `f`, `g`, `h` and arguments
`xs`, `flow(f, flow(g, h))(xs...)`, `flow(flow(f, g), h)(xs...)` and
`flow(f, g, h)(xs...)` are the same, accepted or rejected alike. -/
theorem flow_associative {α : Type} (f g h : Callable α α) (xs : List α) :
    (flow_adaptor f [flow_adaptor g [h]]).call xs = (flow_adaptor f [g, h]).call xs ∧
      (flow_adaptor (flow_adaptor f [g]) [h]).call xs = (flow_adaptor f [g, h]).call xs := by
  constructor
  · rfl
  · simp only [flow_adaptor, flow_kernel]
    cases f.call xs <;> rfl

/-! ## Theorems: repeat_while.hpp, the first test and termination -/

/-- The specialisation `while_repeater<false>` returns its value at every
depth. -/
theorem while_repeater_false {α : Type} (f : Callable α α) (p : Callable α Bool)
    (depth : Nat) (x : α) : while_repeater f p depth false [x] = some x := by
  cases depth <;> rfl

/-- One unfolding of `while_repeater<true>`: the next instantiation gets the
value `f(x)` together with the predicate on that same value. -/
theorem while_repeater_true_step {α : Type} (f : Callable α α) (p : Callable α Bool)
    (depth : Nat) (x y : α) (B : Bool) (hf : f.call [x] = some y)
    (hp : p.call [y] = some B) :
    while_repeater f p (depth + 1) true [x] = while_repeater f p depth B [y] := by
  simp only [while_repeater, hf, compute_predicate, hp]

/-- The decorator instantiates `while_repeater` with the predicate on `f(x)`
and passes `x`. -/
theorem repeat_while_decorator_flag {α : Type} (f : Callable α α) (p : Callable α Bool)
    (depth : Nat) (x y : α) (B : Bool) (hf : f.call [x] = some y)
    (hp : p.call [y] = some B) :
    repeat_while depth p f [x] = while_repeater f p depth B [x] := by
  simp only [repeat_while_eq, repeat_while_decorator, hf, compute_predicate, hp]

/-- With a function `g` and a predicate `q` defined on every value: when the
predicate is true on `g(x), ..., g^m(x)` and false on `g^(m+1)(x)`,
`while_repeater<true>` on `x` returns `g^(m+1)(x)` at every depth above `m`. -/
theorem while_repeater_reaches {α : Type} (f : Callable α α) (p : Callable α Bool)
    (g : α → α) (q : α → Bool) (hf : ∀ y : α, f.call [y] = some (g y))
    (hp : ∀ y : α, p.call [y] = some (q y)) (m : Nat) (x : α) (depth : Nat)
    (htrue : ∀ j : Nat, j < m → q (g^[j + 1] x) = true)
    (hfalse : q (g^[m + 1] x) = false) (hdepth : m < depth) :
    while_repeater f p depth true [x] = some (g^[m + 1] x) := by
  induction m generalizing x depth with
  | zero =>
    obtain ⟨d, rfl⟩ : ∃ d, depth = d + 1 := ⟨depth - 1, by omega⟩
    have hq : q (g x) = false := by simpa using hfalse
    rw [while_repeater_true_step f p d x (g x) (q (g x)) (hf x) (hp (g x)), hq,
      while_repeater_false]
    rfl
  | succ m ih =>
    obtain ⟨d, rfl⟩ : ∃ d, depth = d + 1 := ⟨depth - 1, by omega⟩
    have hq : q (g x) = true := by simpa using htrue 0 (by omega)
    rw [while_repeater_true_step f p d x (g x) (q (g x)) (hf x) (hp (g x)), hq]
    have hnext := ih (g x) d
      (fun j hj => by
        have h := htrue (j + 1) (by omega)
        simpa only [Function.iterate_succ_apply] using h)
      (by simpa only [Function.iterate_succ_apply] using hfalse)
      (by omega)
    rw [hnext]
    simp only [Function.iterate_succ_apply]

/-- With a function `g` and a predicate `q` defined on every value: when the
predicate is true on every `g^k(x)`, `k >= 1`, `while_repeater<true>` on `x`
reaches `while_repeater<false>` at no depth. -/
theorem while_repeater_never {α : Type} (f : Callable α α) (p : Callable α Bool)
    (g : α → α) (q : α → Bool) (hf : ∀ y : α, f.call [y] = some (g y))
    (hp : ∀ y : α, p.call [y] = some (q y)) (depth : Nat) (x : α)
    (htrue : ∀ j : Nat, q (g^[j + 1] x) = true) :
    while_repeater f p depth true [x] = none := by
  induction depth generalizing x with
  | zero => rfl
  | succ d ih =>
    have hq : q (g x) = true := by simpa using htrue 0
    rw [while_repeater_true_step f p d x (g x) (q (g x)) (hf x) (hp (g x)), hq]
    apply ih
    intro j
    have h := htrue (j + 1)
    simpa only [Function.iterate_succ_apply] using h

/-- C38: the first test of `repeat_while` is made on `f(x)`, not on `x`.  For
`y = f(x)` and `B` the predicate on `y`: the decorator instantiates
`while_repeater<B>` on `x`, so when `B` is false the call returns `x` itself
without applying `f`, whatever the predicate says about `x`; one unfolding of
`while_repeater<true>` on `x` instantiates `while_repeater<B>` on `y`, so from
the second step on the flag is the predicate on the value it travels with. -/
theorem repeat_while_first_test_on_fx {α : Type} (pred : Callable α Bool)
    (f : Callable α α) (depth : Nat) (x y : α) (B : Bool) (hf : f.call [x] = some y)
    (hp : pred.call [y] = some B) :
    repeat_while depth pred f [x] = while_repeater f pred depth B [x] ∧
      (B = false → repeat_while depth pred f [x] = some x) ∧
      while_repeater f pred (depth + 1) true [x] = while_repeater f pred depth B [y] := by
  refine ⟨repeat_while_decorator_flag f pred depth x y B hf hp, ?_,
    while_repeater_true_step f pred depth x y B hf hp⟩
  intro hB
  rw [repeat_while_decorator_flag f pred depth x y B hf hp, hB, while_repeater_false]

/-- Witness of C38: `not_6` and `increment` at 5: the predicate is true on 5
and false on `increment(5) == 6`, and the call returns 5. -/
theorem repeat_while_first_test_on_fx_witness :
    increment.call [5] = some 6 ∧ not_6.call [6] = some false ∧
      not_6.call [5] = some true ∧ repeat_while 0 not_6 increment [5] = some 5 :=
  ⟨rfl, rfl, rfl,
    (repeat_while_first_test_on_fx not_6 increment 0 5 6 false rfl rfl).2.1 rfl⟩

/-- C40: for a function `g` and a predicate `q` defined on every value: if the
predicate is false on `g^k(x)` for some `k >= 1`, `repeat_while(pred)(f)(x)` has
a result at every depth of at least `k` unfoldings; if the predicate is true on
every `g^k(x)`, `k >= 1`, it has a result at no depth. -/
theorem repeat_while_terminates {α : Type} (pred : Callable α Bool) (f : Callable α α)
    (g : α → α) (q : α → Bool) (x : α) (hf : ∀ y : α, f.call [y] = some (g y))
    (hp : ∀ y : α, pred.call [y] = some (q y)) :
    (∀ k : Nat, 1 ≤ k → q (g^[k] x) = false →
      ∀ depth : Nat, k ≤ depth → ∃ r : α, repeat_while depth pred f [x] = some r) ∧
    ((∀ k : Nat, 1 ≤ k → q (g^[k] x) = true) →
      ∀ depth : Nat, repeat_while depth pred f [x] = none) := by
  have hflag : ∀ depth : Nat,
      repeat_while depth pred f [x] = while_repeater f pred depth (q (g x)) [x] :=
    fun depth => repeat_while_decorator_flag f pred depth x (g x) (q (g x)) (hf x) (hp (g x))
  constructor
  · intro k hk hfalse depth hdepth
    rw [hflag]
    cases hq : q (g x) with
    | false => exact ⟨x, while_repeater_false f pred depth x⟩
    | true =>
      have hex : ∃ j : Nat, q (g^[j + 1] x) = false :=
        ⟨k - 1, by
          have hk1 : k - 1 + 1 = k := by omega
          rw [hk1]
          exact hfalse⟩
      have hle : Nat.find hex ≤ k - 1 := Nat.find_min' hex (by
        have hk1 : k - 1 + 1 = k := by omega
        rw [hk1]
        exact hfalse)
      refine ⟨g^[Nat.find hex + 1] x, ?_⟩
      apply while_repeater_reaches f pred g q hf hp (Nat.find hex) x depth
      · intro j hj
        have hnot := Nat.find_min hex hj
        simpa using hnot
      · exact Nat.find_spec hex
      · omega
  · intro htrue depth
    rw [hflag]
    have hq : q (g x) = true := by simpa using htrue 1 (Nat.le_refl 1)
    rw [hq]
    exact while_repeater_never f pred g q hf hp depth x (fun j => htrue (j + 1) (by omega))

/-- Witness of C40: `not_6` and `increment` from 1: the predicate is false on
`increment^5(1) == 6`, and the call has the result 6 with 5 unfoldings. -/
theorem repeat_while_terminates_witness :
    (∀ y : Int, increment.call [y] = some (y + 1)) ∧
      (∀ y : Int, not_6.call [y] = some (decide (y ≠ 6))) ∧
      (∃ r : Int, repeat_while 5 not_6 increment [1] = some r) ∧
      repeat_while 5 not_6 increment [1] = some 6 :=
  ⟨fun _ => rfl, fun _ => rfl,
    (repeat_while_terminates not_6 increment (fun y => y + 1) (fun y => decide (y ≠ 6)) 1
      (fun _ => rfl) (fun _ => rfl)).1 5 (by decide) (by decide) 5 (Nat.le_refl 5),
    by decide⟩

end Fit
